import Mathlib

/-! # Glyph Codex: the search / filter engine of `static/js/app.js`

A shallow embedding of the class `MysticalGlyphCodex`: the record store
(`glyphData`, `idealsData`), the filter engine (`handleSearch`), the category
facet (`populateCategoryFilter`), the card derivation of `displayGlyphs`, the
loaders (`loadGlyphs`, `loadIdeals`, `loadSacredData`), the loads started by `init`,
the interaction tracker (`trackInteraction`) and `escapeHtml`.

Modelling conventions.

* A JavaScript string is the list of its UTF-16 code units (`JsString`), so that
  `includes` and the default `sort` order are the code-unit ones of the language.
* A record field that is expected to hold text is a `JsText`: `undefined` when the
  key is missing, `null`, or a string.  `layered_interpretations` is a `JsArray`.
* A method call on `undefined` or `null` throws a `TypeError`; operations that can
  throw return `Except JsError _`.
* `String.prototype.toLowerCase` is a built-in of the host.  It is taken as the
  parameter `lower`; `asciiLower` is its restriction to ASCII text and is used to
  evaluate concrete examples.
* DOM elements looked up by the constructor are `Option`s (`none` when the element
  is not in the page); toast messages, ripples and animations are not modelled.
-/

namespace GlyphCodex

/-! ## JavaScript values -/

/-- A JavaScript string as the list of its UTF-16 code units (naturals below 65536). -/
abbrev JsString := List Nat

/-- UTF-16 code units of one Unicode scalar value. -/
def utf16Char (c : Char) : List Nat :=
  if c.toNat < 65536 then [c.toNat]
  else [55296 + (c.toNat - 65536) / 1024, 56320 + (c.toNat - 65536) % 1024]

/-- UTF-16 encoding of a string literal of the source. -/
def utf16 (s : String) : JsString :=
  s.toList.foldr (fun c acc => utf16Char c ++ acc) []

/-- Errors thrown by the modelled fragment of the language. -/
inductive JsError where
  | typeError
  deriving DecidableEq, Repr

/-- Value of a text field of a JSON record: a missing key reads as `undefined`. -/
inductive JsText where
  | undefined
  | null
  | str (s : JsString)
  deriving DecidableEq, Repr

/-- Value of an array field of a JSON record. -/
inductive JsArray where
  | undefined
  | null
  | arr (items : List JsText)
  deriving DecidableEq, Repr

namespace JsText

/-- Truthiness, `Boolean(v)`: only a non-empty string is truthy. -/
def truthy : JsText → Bool
  | str s => !s.isEmpty
  | _ => false

/-- The operator `a || b` on text values. -/
def orElse (a b : JsText) : JsText :=
  if a.truthy then a else b

/-- Method call `v.toLowerCase()`; throws on a receiver that is not a string. -/
def toLowerCase (lower : JsString → JsString) : JsText → Except JsError JsString
  | str s => .ok (lower s)
  | _ => .error .typeError

end JsText

namespace JsArray

/-- The operator `a || []`: every array, also the empty one, is truthy. -/
def orEmpty : JsArray → JsArray
  | arr items => arr items
  | _ => arr []

/-- Spread `...a` inside an array literal; throws when `a` is not iterable. -/
def spread : JsArray → Except JsError (List JsText)
  | arr items => .ok items
  | _ => .error .typeError

end JsArray

/-- The code units that `trim` strips: WhiteSpace and LineTerminator of ECMAScript. -/
def isWhiteSpace (u : Nat) : Bool :=
  u == 9 || u == 10 || u == 11 || u == 12 || u == 13 || u == 32 || u == 160 ||
  u == 5760 || (8192 ≤ u && u ≤ 8202) || u == 8232 || u == 8233 || u == 8239 ||
  u == 8287 || u == 12288 || u == 65279

/-- `String.prototype.trim` on code units. -/
def trim (s : JsString) : JsString :=
  ((s.dropWhile isWhiteSpace).reverse.dropWhile isWhiteSpace).reverse

/-- Method call `v.trim()`; throws on a receiver that is not a string. -/
def JsText.trim : JsText → Except JsError JsString
  | .str s => .ok (GlyphCodex.trim s)
  | _ => .error .typeError

/-- `String.prototype.includes`: does `search` occur in `s` at some index. -/
def includes : JsString → JsString → Bool
  | [], search => search.isEmpty
  | c :: cs, search => search.isPrefixOf (c :: cs) || includes cs search

/-- ASCII fragment of `toLowerCase`: `A`..`Z` are mapped to `a`..`z`. -/
def asciiLower (s : JsString) : JsString :=
  s.map (fun u => if 65 ≤ u ∧ u ≤ 90 then u + 32 else u)

/-- `Array.prototype.filter` with a callback that may throw. -/
def filterE {α : Type} (p : α → Except JsError Bool) : List α → Except JsError (List α)
  | [] => .ok []
  | x :: xs =>
    match p x with
    | .error e => .error e
    | .ok keep =>
      match filterE p xs with
      | .error e => .error e
      | .ok rest => .ok (if keep then x :: rest else rest)

/-- `Array.prototype.some` with a callback that may throw; stops at the first hit. -/
def someE {α : Type} (p : α → Except JsError Bool) : List α → Except JsError Bool
  | [] => .ok false
  | x :: xs =>
    match p x with
    | .error e => .error e
    | .ok true => .ok true
    | .ok false => someE p xs

/-! ## Data model -/

/-- A glyph record as served by `/api/glyphs`. -/
structure Glyph where
  unicode_char : JsText
  unicode : JsText
  symbol : JsText
  name : JsText
  primary_meaning : JsText
  meaning : JsText
  transliteration : JsText
  category : JsText
  mystical_significance : JsText
  layered_interpretations : JsArray
  deriving DecidableEq, Repr

/-- The body posted to `/api/log_interaction` by `trackInteraction`. -/
structure Interaction where
  action_type : JsString
  user_input : JsString
  system_response : JsString
  related_glyphs : JsArray
  context_summary : JsString
  deriving DecidableEq, Repr

/-- The values `displayGlyphs` derives for one card. -/
structure GlyphCard where
  symbol : JsText
  name : JsText
  transliteration : JsText
  meaning : JsText
  category : JsText
  mysticalSignificance : JsText
  interpretations : JsArray
  deriving DecidableEq, Repr

/-- What `resultsContainer` shows. -/
inductive Display where
  | initial
  | loading (message : JsString)
  | error (message : JsString)
  | noResults
  | cards (cs : List GlyphCard)
  deriving DecidableEq, Repr

/-- The `<select id="category-filter">` element: its value and its option values. -/
structure SelectElement where
  value : JsString
  options : List JsString
  deriving DecidableEq, Repr

/-- The fields of a `MysticalGlyphCodex` instance together with the DOM elements
it holds and the interaction requests it has sent. -/
structure App where
  glyphData : List Glyph
  idealsData : List JsString
  filteredGlyphs : List Glyph
  currentSearchTerm : JsString
  currentCategory : JsString
  isLoading : Bool
  searchBox : Option JsString
  categoryFilter : Option SelectElement
  resultsContainer : Option Display
  interactions : List Interaction
  deriving DecidableEq, Repr

/-- State set up by the constructor (lines 4-19), given the elements found in the page. -/
def constructor (searchBox : Option JsString) (categoryFilter : Option SelectElement)
    (resultsContainer : Option Display) : App :=
  { glyphData := [], idealsData := [], filteredGlyphs := [],
    currentSearchTerm := [], currentCategory := [], isLoading := false,
    searchBox := searchBox, categoryFilter := categoryFilter,
    resultsContainer := resultsContainer, interactions := [] }

/-! ## Display and tracking -/

/-- The per-card values of `displayGlyphs` (lines 367-373). -/
def glyphCard (glyph : Glyph) : GlyphCard :=
  { symbol := ((glyph.unicode_char.orElse glyph.unicode).orElse glyph.symbol).orElse
      (.str (utf16 "𓈖")),
    name := (glyph.name.orElse glyph.primary_meaning).orElse (.str (utf16 "Unknown Glyph")),
    transliteration := glyph.transliteration.orElse (.str (utf16 "Unknown")),
    meaning := (glyph.primary_meaning.orElse glyph.meaning).orElse
      (.str (utf16 "Ancient mystery")),
    category := glyph.category.orElse (.str (utf16 "Uncategorized")),
    mysticalSignificance := glyph.mystical_significance.orElse
      (.str (utf16 "This glyph holds ancient wisdom waiting to be discovered.")),
    interpretations := glyph.layered_interpretations.orEmpty }

/-- Method `displayGlyphs` (lines 352-426): render the cards of `glyphs`, or the
no-results block when there is none; nothing happens without a results container. -/
def displayGlyphs (glyphs : List Glyph) (app : App) : App :=
  match app.resultsContainer with
  | none => app
  | some _ =>
    if glyphs.length = 0 then { app with resultsContainer := some Display.noResults }
    else { app with resultsContainer := some (Display.cards (glyphs.map glyphCard)) }

/-- Method `showError` (lines 623-633). -/
def showError (message : JsString) (app : App) : App :=
  match app.resultsContainer with
  | none => app
  | some _ => { app with resultsContainer := some (Display.error message) }

/-- Method `trackInteraction` (lines 781-799): the request is sent when the method
is called; its completion and its failure are not observed by the caller. -/
def trackInteraction (actionType userInput systemResponse : JsString)
    (relatedGlyphs : JsArray) (app : App) : App :=
  { app with interactions := app.interactions ++
      [{ action_type := actionType,
         user_input := userInput,
         system_response := systemResponse,
         related_glyphs := relatedGlyphs.orEmpty,
         context_summary :=
           utf16 "Seeker performed " ++ actionType ++ utf16 " in the mystical realm" }] }

/-! ## Filter engine -/

/-- The array `searchableFields` of `handleSearch` (lines 477-485), after `.filter(Boolean)`. -/
def searchableFields (glyph : Glyph) : Except JsError (List JsText) :=
  match glyph.layered_interpretations.orEmpty.spread with
  | .error e => .error e
  | .ok interpretations =>
    .ok (([glyph.name, glyph.primary_meaning, glyph.meaning, glyph.transliteration,
           glyph.category, glyph.mystical_significance] ++ interpretations).filter
          JsText.truthy)

/-- The callback of `searchableFields.some` (lines 487-489). -/
def fieldMatches (lower : JsString → JsString) (searchTerm : JsString) (field : JsText) :
    Except JsError Bool :=
  match field.toLowerCase lower with
  | .error e => .error e
  | .ok lowered => .ok (includes lowered searchTerm)

/-- The text-match test of `handleSearch` for one record (lines 476-490). -/
def matchesSearch (lower : JsString → JsString) (searchTerm : JsString) (glyph : Glyph) :
    Except JsError Bool :=
  match searchableFields glyph with
  | .error e => .error e
  | .ok fields => someE (fieldMatches lower searchTerm) fields

/-- The symbol `handleSearch` reports for a record: `g.unicode_char || g.symbol` (line 494). -/
def trackedSymbol (g : Glyph) : JsText :=
  g.unicode_char.orElse g.symbol

/-- Method `handleSearch` (lines 465-509). -/
def handleSearch (lower : JsString → JsString) (app : App) : Except JsError App :=
  let searchTerm : JsString :=
    match app.searchBox with
    | some value => lower value
    | none => []
  let selectedCategory : JsString :=
    match app.categoryFilter with
    | some select => select.value
    | none => []
  let app1 := { app with currentSearchTerm := searchTerm, currentCategory := selectedCategory }
  let searched : Except JsError (List Glyph × App) :=
    if searchTerm ≠ [] then
      match filterE (matchesSearch lower searchTerm) app1.glyphData with
      | .error e => .error e
      | .ok filtered =>
        .ok (filtered,
          trackInteraction (utf16 "glyph_search") searchTerm
            (utf16 "Sought wisdom: " ++ searchTerm)
            (JsArray.arr (filtered.map trackedSymbol)) app1)
    else .ok (app1.glyphData, app1)
  match searched with
  | .error e => .error e
  | .ok (filtered, app2) =>
    let filtered2 :=
      if selectedCategory ≠ [] then
        filtered.filter (fun glyph => decide (glyph.category = JsText.str selectedCategory))
      else filtered
    .ok (displayGlyphs filtered2 { app2 with filteredGlyphs := filtered2 })

/-! ## Category facet -/

/-- The elements of `new Set(xs)` in insertion order: a value already present is skipped. -/
def newSet (xs : List JsText) : List JsText :=
  xs.foldl (fun acc x => if x ∈ acc then acc else acc ++ [x]) []

/-- The abstract operation `ToString` on text values. -/
def JsText.toJsString : JsText → JsString
  | .undefined => utf16 "undefined"
  | .null => utf16 "null"
  | .str s => s

/-- Strict order of strings: lexicographic on code units, a proper start is smaller. -/
def strLt : JsString → JsString → Bool
  | _, [] => false
  | [], _ :: _ => true
  | a :: as, b :: bs => decide (a < b) || (a == b && strLt as bs)

/-- The default comparison of `Array.prototype.sort` as "x may stand before y":
`undefined` goes last, everything else is compared through `ToString`. -/
def sortLe (x y : JsText) : Bool :=
  match x, y with
  | _, .undefined => true
  | .undefined, _ => false
  | x, y => !strLt y.toJsString x.toJsString

/-- `Array.prototype.sort()` without a comparator (a stable sort). -/
def sort (xs : List JsText) : List JsText :=
  xs.insertionSort (fun x y => sortLe x y = true)

/-- The callback `cat => cat && cat.trim()` of line 341, read as a boolean. -/
def categoryKept (cat : JsText) : Except JsError Bool :=
  if cat.truthy then
    match cat.trim with
    | .error e => .error e
    | .ok trimmed => .ok (!trimmed.isEmpty)
  else .ok false

/-- The constant `categories` of `populateCategoryFilter` (lines 340-342). -/
def categories (glyphData : List Glyph) : Except JsError (List JsText) :=
  match filterE categoryKept (newSet (glyphData.map (fun glyph => glyph.category))) with
  | .error e => .error e
  | .ok kept => .ok (sort kept)

/-- Method `populateCategoryFilter` (lines 333-350): the select is reset to the single
"all" option (which becomes the selected one) and gets one option per category. -/
def populateCategoryFilter (app : App) : Except JsError App :=
  match app.categoryFilter with
  | none => .ok app
  | some _ =>
    match categories app.glyphData with
    | .error e => .error e
    | .ok cats =>
      .ok { app with
        categoryFilter := some (SelectElement.mk [] ([] :: cats.map JsText.toJsString)) }

/-! ## Loading -/

/-- How the request of a loader ends: `fetch` or `json()` rejects, the response is not
`ok`, or the body is delivered. -/
inductive FetchOutcome (α : Type) where
  | rejected
  | notOk
  | body (data : α)
  deriving Repr

/-- Method `loadGlyphs` (lines 313-331), run to completion on the outcome of its request.
Every error raised inside the `try` block ends in `showError`. -/
def loadGlyphs (response : FetchOutcome (List Glyph)) (app : App) : App :=
  match response with
  | .body data =>
    let app1 := { app with glyphData := data, filteredGlyphs := data }
    match populateCategoryFilter app1 with
    | .ok app2 => displayGlyphs app2.glyphData app2
    | .error _ =>
      showError (utf16 "The glyphs remain veiled. Please try again.")
        { app1 with
          categoryFilter := app1.categoryFilter.map (fun _ => SelectElement.mk [] [[]]) }
  | _ => showError (utf16 "The glyphs remain veiled. Please try again.") app

/-! ## Runs of the application -/

/-- What can happen to a running instance: the user edits the search box or picks a
category, an event handler calls `handleSearch`, or a glyph load completes. -/
inductive Action where
  | input (text : JsString)
  | select (category : JsString)
  | search
  | glyphsLoaded (response : FetchOutcome (List Glyph))

/-- One action on a state. -/
def step (lower : JsString → JsString) (a : Action) (app : App) : Except JsError App :=
  match a with
  | .input text => .ok { app with searchBox := app.searchBox.map (fun _ => text) }
  | .select category =>
    .ok { app with
      categoryFilter := app.categoryFilter.map (fun sel => SelectElement.mk category sel.options) }
  | .search => handleSearch lower app
  | .glyphsLoaded response => .ok (loadGlyphs response app)

/-- A sequence of actions, from left to right. -/
def run (lower : JsString → JsString) : List Action → App → Except JsError App
  | [], app => .ok app
  | a :: rest, app =>
    match step lower a app with
    | .error e => .error e
    | .ok app1 => run lower rest app1

/-! ## Concrete data for the examples -/

/-- A record with every key missing. -/
def emptyGlyph : Glyph :=
  { unicode_char := .undefined, unicode := .undefined, symbol := .undefined,
    name := .undefined, primary_meaning := .undefined, meaning := .undefined,
    transliteration := .undefined, category := .undefined,
    mystical_significance := .undefined, layered_interpretations := .undefined }

/-- The record `{name: "Ankh", category: "Life", primary_meaning: "eternal life"}`. -/
def ankh : Glyph :=
  { emptyGlyph with name := .str (utf16 "Ankh"), category := .str (utf16 "Life"),
                    primary_meaning := .str (utf16 "eternal life") }

/-- The record `{name: "Was", category: "Power", primary_meaning: "dominion"}`. -/
def was : Glyph :=
  { emptyGlyph with name := .str (utf16 "Was"), category := .str (utf16 "Power"),
                    primary_meaning := .str (utf16 "dominion") }

/-- The first example record with a display symbol under `unicode_char`. -/
def ankhSymbol : Glyph :=
  { ankh with unicode_char := .str (utf16 "☥") }

/-- The second example record with a display symbol under `unicode_char`. -/
def wasSymbol : Glyph :=
  { was with unicode_char := .str (utf16 "𓌀") }

/-- A loaded instance over `glyphs` whose search box holds `text` and whose category
select holds `category`. -/
def appWith (glyphs : List Glyph) (text category : JsString) : App :=
  { glyphData := glyphs, idealsData := [], filteredGlyphs := glyphs,
    currentSearchTerm := [], currentCategory := [], isLoading := false,
    searchBox := some text,
    categoryFilter := some (SelectElement.mk category []),
    resultsContainer := some Display.initial, interactions := [] }

/-! ## Specification vocabulary -/

/-- Elements of an array value; a missing or null array has none. -/
def JsArray.items : JsArray → List JsText
  | .arr items => items
  | _ => []

/-- The string a text value holds, when it is present (neither missing nor null). -/
def JsText.text? : JsText → Option JsString
  | .str s => some s
  | _ => none

/-- The values of the searchable fields of a record: name, primary_meaning, meaning,
transliteration, category, mystical_significance and each layered interpretation. -/
def searchableValues (g : Glyph) : List JsText :=
  [g.name, g.primary_meaning, g.meaning, g.transliteration, g.category,
   g.mystical_significance] ++ g.layered_interpretations.items

/-- The texts that are present among the searchable fields of a record. -/
def presentTexts (g : Glyph) : List JsString :=
  (searchableValues g).filterMap JsText.text?

/-- Spec 4.2 step 2: the lower-cased term is a substring of the lower-cased value of at
least one present searchable field. -/
def TextMatch (lower : JsString → JsString) (term : JsString) (g : Glyph) : Prop :=
  ∃ s ∈ presentTexts g, term <:+: lower s

/-- Spec 4.2 step 3: the category field is exactly the selected category. -/
def CategoryMatch (category : JsString) (g : Glyph) : Prop :=
  g.category = JsText.str category

instance (lower : JsString → JsString) (term : JsString) (g : Glyph) :
    Decidable (TextMatch lower term g) := by
  unfold TextMatch; infer_instance

instance (category : JsString) (g : Glyph) : Decidable (CategoryMatch category g) := by
  unfold CategoryMatch; infer_instance

/-- The search term `handleSearch` reads from the page (line 466). -/
def searchTermOf (lower : JsString → JsString) (app : App) : JsString :=
  match app.searchBox with
  | some value => lower value
  | none => []

/-- The category `handleSearch` reads from the page (line 467). -/
def selectedCategoryOf (app : App) : JsString :=
  match app.categoryFilter with
  | some select => select.value
  | none => []

/-- The instance after the user has typed `text` into the search box and picked
`category` in the select (both elements in the page). -/
def App.withInputs (app : App) (text category : JsString) : App :=
  { app with
    searchBox := some text,
    categoryFilter :=
      some (SelectElement.mk category ((app.categoryFilter.map (fun sel => sel.options)).getD [])) }

/-- The text-match test as a total boolean function on the truthy searchable values. -/
def matchesText (lower : JsString → JsString) (term : JsString) (g : Glyph) : Bool :=
  ((searchableValues g).filter JsText.truthy).any
    (fun f => match f with
      | .str s => includes (lower s) term
      | _ => false)

/-- Records kept by the text step of `handleSearch`. -/
def textFiltered (lower : JsString → JsString) (term : JsString) (glyphs : List Glyph) :
    List Glyph :=
  if term ≠ [] then glyphs.filter (matchesText lower term) else glyphs

/-- Records kept by the category step of `handleSearch`. -/
def categoryFiltered (category : JsString) (glyphs : List Glyph) : List Glyph :=
  if category ≠ [] then glyphs.filter (fun g => decide (g.category = JsText.str category))
  else glyphs

/-- The request `handleSearch` sends for a non-empty term. -/
def searchEvent (term : JsString) (found : List Glyph) : Interaction :=
  { action_type := utf16 "glyph_search",
    user_input := term,
    system_response := utf16 "Sought wisdom: " ++ term,
    related_glyphs := JsArray.arr (found.map trackedSymbol),
    context_summary :=
      utf16 "Seeker performed " ++ utf16 "glyph_search" ++ utf16 " in the mystical realm" }

/-- The callback of line 341 as a total boolean function. -/
def keepsCategory (cat : JsText) : Bool :=
  match cat with
  | .str s => !s.isEmpty && !(trim s).isEmpty
  | _ => false

/-! ## Startup: loading both collections -/

/-- Method `showLoading` (lines 607-617). -/
def showLoading (message : JsString) (app : App) : App :=
  match app.resultsContainer with
  | none => app
  | some _ =>
    { app with isLoading := true, resultsContainer := some (Display.loading message) }

/-- Method `hideLoading` (lines 619-621). -/
def hideLoading (app : App) : App :=
  { app with isLoading := false }

/-- Method `loadIdeals` (lines 635-648), run to completion on the outcome of its request;
the `catch` clause only logs. -/
def loadIdeals (response : FetchOutcome (List JsString)) (app : App) : App :=
  match response with
  | .body data => { app with idealsData := data }
  | _ => app

/-- How the promise of an `async` method settles: fulfilled, or rejected with the error
that left the method; either way the instance is in some state. -/
inductive Settled where
  | fulfilled (app : App)
  | rejected (error : JsError) (app : App)
  deriving DecidableEq, Repr

/-- The promise of `loadGlyphs`: the whole body is inside `try`, and the `catch` clause
(a log and `showError`) raises nothing. -/
def loadGlyphsPromise (response : FetchOutcome (List Glyph)) (app : App) : Settled :=
  Settled.fulfilled (loadGlyphs response app)

/-- The promise of `loadIdeals`: the whole body is inside `try`, and the `catch` clause
(a log) raises nothing. -/
def loadIdealsPromise (response : FetchOutcome (List JsString)) (app : App) : Settled :=
  Settled.fulfilled (loadIdeals response app)

/-- One more promise awaited by `Promise.all`: a rejection ends the wait. -/
def Settled.andThen (first : Settled) (next : App → Settled) : Settled :=
  match first with
  | .fulfilled app => next app
  | .rejected e app => .rejected e app

/-- Method `loadSacredData` (lines 298-311) on the outcomes of the two requests;
`glyphsFirst` tells which of the two loaders completes first. -/
def loadSacredData (glyphs : FetchOutcome (List Glyph)) (ideals : FetchOutcome (List JsString))
    (glyphsFirst : Bool) (app : App) : App :=
  let app1 := showLoading (utf16 "Channeling ancient wisdom...") app
  let all : Settled :=
    if glyphsFirst then (loadGlyphsPromise glyphs app1).andThen (loadIdealsPromise ideals)
    else (loadIdealsPromise ideals app1).andThen (loadGlyphsPromise glyphs)
  match all with
  | .fulfilled app2 => hideLoading app2
  | .rejected _ app2 =>
    hideLoading (showError
      (utf16 "The cosmic connection has been disrupted. Please refresh to restore the link.")
      app2)

/-- A request for one of the two collections. -/
inductive Request where
  | glyphs
  | ideals
  deriving DecidableEq, Repr

/-- The loads started by `switchTab` (lines 287-290): the ideals are requested when the
tab is "maat" and no ideal is loaded. -/
def switchTab (tabName : JsText) (app : App) : List Request :=
  if tabName = JsText.str (utf16 "maat") ∧ app.idealsData.length = 0 then [Request.ideals]
  else []

/-- The loads started by `initializeTabs` (lines 36-43); `activeTab` is `none` when no tab
link is active, else the `data-tab` attribute of the active link (`null` without one). -/
def initializeTabs (activeTab : Option JsText) (app : App) : List Request :=
  match activeTab with
  | some tabName => switchTab tabName app
  | none => []

/-- The loads started by `loadSacredData` (lines 301-304): both loaders are called. -/
def loadSacredDataRequests : List Request :=
  [Request.glyphs, Request.ideals]

/-- The loads started by `init` (lines 25-34), which the constructor calls on the state
it has set up: those of `initializeTabs`, then those of `loadSacredData`. -/
def init (activeTab : Option JsText) (searchBox : Option JsString)
    (categoryFilter : Option SelectElement) (resultsContainer : Option Display) :
    List Request :=
  initializeTabs activeTab (constructor searchBox categoryFilter resultsContainer) ++
    loadSacredDataRequests

/-! ## Escaping -/

/-- The entry `map[m]` of `escapeHtml` for a code unit matched by the pattern, and the
code unit itself when the pattern does not match it. -/
def escapeUnit (u : Nat) : JsString :=
  if u = 38 then utf16 "&amp;"
  else if u = 60 then utf16 "&lt;"
  else if u = 62 then utf16 "&gt;"
  else if u = 34 then utf16 "&quot;"
  else if u = 39 then utf16 "&#039;"
  else [u]

/-- The global replace of `escapeHtml` on a string: every code unit is mapped on its own. -/
def replaceSpecial (s : JsString) : JsString :=
  s.foldr (fun u acc => escapeUnit u ++ acc) []

/-- Method call `v.replace(...)` of `escapeHtml`; throws on a receiver that is not a string. -/
def JsText.replaceSpecial : JsText → Except JsError JsString
  | .str s => .ok (GlyphCodex.replaceSpecial s)
  | _ => .error .typeError

/-- Method `escapeHtml` (lines 801-810): `text ? text.replace(...) : ""`. -/
def escapeHtml (text : JsText) : Except JsError JsString :=
  if text.truthy then text.replaceSpecial else .ok []

/-- The five entities `escapeHtml` writes. -/
def entities : List JsString :=
  [utf16 "&amp;", utf16 "&lt;", utf16 "&gt;", utf16 "&quot;", utf16 "&#039;"]

/-- The filter result for a search state: the text step, then the category step. -/
def filterResult (lower : JsString → JsString) (term category : JsString)
    (glyphs : List Glyph) : List Glyph :=
  categoryFiltered category (textFiltered lower term glyphs)

/-! ## Basic lemmas -/

theorem isPrefixOf_iff (t s : JsString) : t.isPrefixOf s = true ↔ t <+: s := by
  exact List.isPrefixOf_iff_prefix

theorem includes_iff (s t : JsString) : includes s t = true ↔ t <:+: s := by
  induction s with
  | nil =>
    cases t <;> simp [includes]
  | cons c cs ih =>
    simp only [includes, Bool.or_eq_true, ih, isPrefixOf_iff]
    constructor
    · rintro (h | h)
      · exact h.isInfix
      · exact h.trans (List.infix_cons (List.infix_refl cs))
    · intro h
      rcases List.infix_cons_iff.mp h with h | h
      · exact Or.inl h
      · exact Or.inr h

theorem filterE_ok {α : Type} (p : α → Except JsError Bool) (q : α → Bool) (xs : List α)
    (h : ∀ x ∈ xs, p x = .ok (q x)) : filterE p xs = .ok (xs.filter q) := by
  induction xs with
  | nil => rfl
  | cons x xs ih =>
    have hx := h x (List.mem_cons_self x xs)
    have hxs := ih (fun y hy => h y (List.mem_cons_of_mem x hy))
    simp only [filterE, hx, hxs, List.filter_cons]

theorem someE_ok {α : Type} (p : α → Except JsError Bool) (q : α → Bool) (xs : List α)
    (h : ∀ x ∈ xs, p x = .ok (q x)) : someE p xs = .ok (xs.any q) := by
  induction xs with
  | nil => rfl
  | cons x xs ih =>
    have hx := h x (List.mem_cons_self x xs)
    have hxs := ih (fun y hy => h y (List.mem_cons_of_mem x hy))
    simp only [someE, hx, List.any_cons]
    cases q x <;> simp [hxs]

theorem searchableFields_ok (g : Glyph) :
    searchableFields g = .ok ((searchableValues g).filter JsText.truthy) := by
  unfold searchableFields searchableValues
  cases g.layered_interpretations <;> rfl

theorem matchesSearch_ok (lower : JsString → JsString) (term : JsString) (g : Glyph) :
    matchesSearch lower term g = .ok (matchesText lower term g) := by
  unfold matchesSearch matchesText
  rw [searchableFields_ok]
  refine someE_ok _ _ _ ?_
  intro f hf
  have ht : f.truthy = true := (List.mem_filter.mp hf).2
  cases f <;> simp_all [JsText.truthy, fieldMatches, JsText.toLowerCase]

theorem mem_presentTexts (g : Glyph) (s : JsString) :
    s ∈ presentTexts g ↔ JsText.str s ∈ searchableValues g := by
  unfold presentTexts
  rw [List.mem_filterMap]
  constructor
  · rintro ⟨f, hf, hs⟩
    cases f <;> simp_all [JsText.text?]
  · intro h
    exact ⟨JsText.str s, h, rfl⟩

theorem matchesText_iff (lower : JsString → JsString) (term : JsString) (g : Glyph) :
    matchesText lower term g = true ↔
      ∃ s ∈ presentTexts g, s ≠ [] ∧ term <:+: lower s := by
  unfold matchesText
  rw [List.any_eq_true]
  constructor
  · rintro ⟨f, hf, hm⟩
    obtain ⟨hmem, ht⟩ := List.mem_filter.mp hf
    cases f with
    | undefined => simp at hm
    | null => simp at hm
    | str s =>
      refine ⟨s, (mem_presentTexts g s).mpr hmem, ?_, (includes_iff _ _).mp hm⟩
      intro hs
      simp [JsText.truthy, hs] at ht
  · rintro ⟨s, hs, hne, hin⟩
    refine ⟨JsText.str s, List.mem_filter.mpr ⟨(mem_presentTexts g s).mp hs, ?_⟩, ?_⟩
    · cases s <;> simp_all [JsText.truthy]
    · exact (includes_iff _ _).mpr hin

theorem matchesText_iff_textMatch (lower : JsString → JsString) (hl : lower [] = [])
    (term : JsString) (hterm : term ≠ []) (g : Glyph) :
    matchesText lower term g = true ↔ TextMatch lower term g := by
  rw [matchesText_iff]
  unfold TextMatch
  constructor
  · rintro ⟨s, hs, _, hin⟩
    exact ⟨s, hs, hin⟩
  · rintro ⟨s, hs, hin⟩
    refine ⟨s, hs, ?_, hin⟩
    intro h
    rw [h, hl] at hin
    exact hterm (List.eq_nil_of_infix_nil hin)

theorem displayGlyphs_fields (glyphs : List Glyph) (app : App) :
    (displayGlyphs glyphs app).glyphData = app.glyphData ∧
    (displayGlyphs glyphs app).idealsData = app.idealsData ∧
    (displayGlyphs glyphs app).filteredGlyphs = app.filteredGlyphs ∧
    (displayGlyphs glyphs app).currentSearchTerm = app.currentSearchTerm ∧
    (displayGlyphs glyphs app).currentCategory = app.currentCategory ∧
    (displayGlyphs glyphs app).isLoading = app.isLoading ∧
    (displayGlyphs glyphs app).searchBox = app.searchBox ∧
    (displayGlyphs glyphs app).categoryFilter = app.categoryFilter ∧
    (displayGlyphs glyphs app).interactions = app.interactions := by
  unfold displayGlyphs
  cases app.resultsContainer with
  | none => simp
  | some d => by_cases h : glyphs.length = 0 <;> simp [h]

/-- The state `handleSearch` produces, spelled out; it never throws. -/
theorem handleSearch_ok (lower : JsString → JsString) (app : App) :
    handleSearch lower app = .ok
      (displayGlyphs
        (categoryFiltered (selectedCategoryOf app)
          (textFiltered lower (searchTermOf lower app) app.glyphData))
        { app with
          currentSearchTerm := searchTermOf lower app,
          currentCategory := selectedCategoryOf app,
          filteredGlyphs :=
            categoryFiltered (selectedCategoryOf app)
              (textFiltered lower (searchTermOf lower app) app.glyphData),
          interactions :=
            if searchTermOf lower app ≠ [] then
              app.interactions ++
                [searchEvent (searchTermOf lower app)
                  (textFiltered lower (searchTermOf lower app) app.glyphData)]
            else app.interactions }) := by
  have hf := filterE_ok (matchesSearch lower (searchTermOf lower app))
    (matchesText lower (searchTermOf lower app)) app.glyphData
    (fun g _ => matchesSearch_ok lower _ g)
  unfold handleSearch
  simp only [← searchTermOf.eq_def, ← selectedCategoryOf.eq_def]
  by_cases ht : searchTermOf lower app = []
  · simp [ht, textFiltered, categoryFiltered]
  · simp [ht, hf, textFiltered, categoryFiltered, trackInteraction, searchEvent,
      JsArray.orEmpty]

theorem handleSearch_filteredGlyphs (lower : JsString → JsString) (app : App) :
    ∃ app', handleSearch lower app = .ok app' ∧
      app'.filteredGlyphs =
        categoryFiltered (selectedCategoryOf app)
          (textFiltered lower (searchTermOf lower app) app.glyphData) :=
  ⟨_, handleSearch_ok lower app, (displayGlyphs_fields _ _).2.2.1⟩

theorem textFiltered_eq (lower : JsString → JsString) (hl : lower [] = [])
    (term : JsString) (hterm : term ≠ []) (glyphs : List Glyph) :
    textFiltered lower term glyphs =
      glyphs.filter (fun g => decide (TextMatch lower term g)) := by
  unfold textFiltered
  rw [if_pos hterm]
  apply List.filter_congr
  intro g _
  rw [Bool.eq_iff_iff, decide_eq_true_iff]
  exact matchesText_iff_textMatch lower hl term hterm g

/-! ## The filter engine (C1 - C4) -/

/-- C1: with a search text whose lower-cased form is non-empty and an empty category
selection, `handleSearch` returns and sets `filteredGlyphs` to exactly the records of
`glyphData`, in order, for which the lower-cased text is a substring of the lower-cased
value of a present searchable field; a record without `primary_meaning` is found
through its `meaning`. -/
theorem handleSearch_text_only (lower : JsString → JsString) (hl : lower [] = [])
    (app : App) (t : JsString) (hbox : app.searchBox = some t) (ht : lower t ≠ [])
    (hcat : ∀ sel, app.categoryFilter = some sel → sel.value = []) :
    ∃ app', handleSearch lower app = .ok app' ∧
      app'.filteredGlyphs =
        app.glyphData.filter (fun g => decide (TextMatch lower (lower t) g)) ∧
      ∀ g ∈ app.glyphData, ∀ m, g.primary_meaning.text? = none → g.meaning = JsText.str m →
        lower t <:+: lower m → g ∈ app'.filteredGlyphs := by
  obtain ⟨app', hok, hf⟩ := handleSearch_filteredGlyphs lower app
  have hterm : searchTermOf lower app = lower t := by simp [searchTermOf, hbox]
  have hsel : selectedCategoryOf app = [] := by
    unfold selectedCategoryOf
    cases hc : app.categoryFilter with
    | none => rfl
    | some sel => exact hcat sel hc
  have hres : app'.filteredGlyphs =
      app.glyphData.filter (fun g => decide (TextMatch lower (lower t) g)) := by
    rw [hf, hterm, hsel, textFiltered_eq lower hl _ ht]
    simp [categoryFiltered]
  refine ⟨app', hok, hres, ?_⟩
  intro g hg m _ hm hin
  rw [hres, List.mem_filter]
  refine ⟨hg, decide_eq_true ⟨m, ?_, hin⟩⟩
  rw [mem_presentTexts]
  simp [searchableValues, hm]

/-- Witness of C1: the search text "LIFE" on a record that has only a `meaning`. -/
theorem handleSearch_text_only_witness :
    ∃ app', handleSearch asciiLower
        (appWith [{ emptyGlyph with meaning := JsText.str (utf16 "eternal life") }, was]
          (utf16 "LIFE") []) = .ok app' ∧
      app'.filteredGlyphs =
        [{ emptyGlyph with meaning := JsText.str (utf16 "eternal life") }, was].filter
          (fun g => decide (TextMatch asciiLower (asciiLower (utf16 "LIFE")) g)) ∧
      ∀ g ∈ [{ emptyGlyph with meaning := JsText.str (utf16 "eternal life") }, was],
        ∀ m, g.primary_meaning.text? = none → g.meaning = JsText.str m →
        asciiLower (utf16 "LIFE") <:+: asciiLower m → g ∈ app'.filteredGlyphs :=
  handleSearch_text_only asciiLower rfl
    (appWith [{ emptyGlyph with meaning := JsText.str (utf16 "eternal life") }, was]
      (utf16 "LIFE") [])
    (utf16 "LIFE") rfl (by decide) (by intro sel h; cases h; rfl)

theorem textFiltered_as_filter (lower : JsString → JsString) (term : JsString) :
    ∃ p : Glyph → Bool, ∀ glyphs, textFiltered lower term glyphs = glyphs.filter p := by
  by_cases h : term = []
  · exact ⟨fun _ => true, fun glyphs => by simp [textFiltered, h]⟩
  · exact ⟨matchesText lower term, fun glyphs => by simp [textFiltered, h]⟩

theorem categoryFiltered_as_filter (category : JsString) :
    ∃ q : Glyph → Bool, ∀ glyphs, categoryFiltered category glyphs = glyphs.filter q := by
  by_cases h : category = []
  · exact ⟨fun _ => true, fun glyphs => by simp [categoryFiltered, h]⟩
  · exact ⟨fun g => decide (g.category = JsText.str category),
      fun glyphs => by simp [categoryFiltered, h]⟩

theorem searchTermOf_withInputs (lower : JsString → JsString) (app : App)
    (t c : JsString) : searchTermOf lower (app.withInputs t c) = lower t := rfl

theorem selectedCategoryOf_withInputs (app : App) (t c : JsString) :
    selectedCategoryOf (app.withInputs t c) = c := rfl

theorem searchTermOf_empty (lower : JsString → JsString) (hl : lower [] = []) (app : App)
    (hbox : ∀ t, app.searchBox = some t → t = []) : searchTermOf lower app = [] := by
  unfold searchTermOf
  cases hb : app.searchBox with
  | none => rfl
  | some t => simp [hbox t hb, hl]

theorem selectedCategoryOf_empty (app : App)
    (hcat : ∀ sel, app.categoryFilter = some sel → sel.value = []) :
    selectedCategoryOf app = [] := by
  unfold selectedCategoryOf
  cases hc : app.categoryFilter with
  | none => rfl
  | some sel => exact hcat sel hc

/-- C2: the result for a search text `t` and a category `c` consists of exactly the
records of `glyphData` that are both in the result for `t` alone and in the result for
`c` alone, in the order of `glyphData`. -/
theorem handleSearch_both_filters (lower : JsString → JsString) (hl : lower [] = [])
    (app : App) (t c : JsString) :
    ∃ r rt rc, handleSearch lower (app.withInputs t c) = .ok r ∧
      handleSearch lower (app.withInputs t []) = .ok rt ∧
      handleSearch lower (app.withInputs [] c) = .ok rc ∧
      r.filteredGlyphs = app.glyphData.filter
        (fun g => decide (g ∈ rt.filteredGlyphs) && decide (g ∈ rc.filteredGlyphs)) := by
  obtain ⟨r, hr, hrf⟩ := handleSearch_filteredGlyphs lower (app.withInputs t c)
  obtain ⟨rt, hrt, hrtf⟩ := handleSearch_filteredGlyphs lower (app.withInputs t [])
  obtain ⟨rc, hrc, hrcf⟩ := handleSearch_filteredGlyphs lower (app.withInputs [] c)
  refine ⟨r, rt, rc, hr, hrt, hrc, ?_⟩
  rw [searchTermOf_withInputs, selectedCategoryOf_withInputs] at hrf hrtf hrcf
  have hG : ∀ x y, (app.withInputs x y).glyphData = app.glyphData := fun _ _ => rfl
  rw [hG] at hrf hrtf hrcf
  obtain ⟨p, hp⟩ := textFiltered_as_filter lower (lower t)
  obtain ⟨q, hq⟩ := categoryFiltered_as_filter c
  have hrt2 : rt.filteredGlyphs = app.glyphData.filter p := by
    rw [hrtf, hp]; simp [categoryFiltered]
  have hrc2 : rc.filteredGlyphs = app.glyphData.filter q := by
    rw [hrcf, hl, hq]; simp [textFiltered]
  rw [hrf, hq, hp, hrt2, hrc2, List.filter_filter]
  apply List.filter_congr
  intro g hg
  simp [List.mem_filter, hg, Bool.and_comm]

/-- Witness of C2: the text "a" and the category "Power" over the two example records. -/
theorem handleSearch_both_filters_witness :
    ∃ r rt rc,
      handleSearch asciiLower
        ((appWith [ankh, was] [] []).withInputs (utf16 "a") (utf16 "Power")) = .ok r ∧
      handleSearch asciiLower
        ((appWith [ankh, was] [] []).withInputs (utf16 "a") []) = .ok rt ∧
      handleSearch asciiLower
        ((appWith [ankh, was] [] []).withInputs [] (utf16 "Power")) = .ok rc ∧
      r.filteredGlyphs = (appWith [ankh, was] [] []).glyphData.filter
        (fun g => decide (g ∈ rt.filteredGlyphs) && decide (g ∈ rc.filteredGlyphs)) :=
  handleSearch_both_filters asciiLower rfl (appWith [ankh, was] [] [])
    (utf16 "a") (utf16 "Power")

/-- C3: with an empty search text and an empty category selection, `handleSearch`
sets `filteredGlyphs` to all of `glyphData`, in the same order. -/
theorem handleSearch_no_filters (lower : JsString → JsString) (hl : lower [] = [])
    (app : App) (hbox : ∀ t, app.searchBox = some t → t = [])
    (hcat : ∀ sel, app.categoryFilter = some sel → sel.value = []) :
    ∃ app', handleSearch lower app = .ok app' ∧ app'.filteredGlyphs = app.glyphData := by
  obtain ⟨app', hok, hf⟩ := handleSearch_filteredGlyphs lower app
  refine ⟨app', hok, ?_⟩
  rw [hf, searchTermOf_empty lower hl app hbox, selectedCategoryOf_empty app hcat]
  simp [textFiltered, categoryFiltered]

/-- Witness of C3: both inputs empty over the two example records. -/
theorem handleSearch_no_filters_witness :
    ∃ app', handleSearch asciiLower (appWith [ankh, was] [] []) = .ok app' ∧
      app'.filteredGlyphs = (appWith [ankh, was] [] []).glyphData :=
  handleSearch_no_filters asciiLower rfl (appWith [ankh, was] [] [])
    (by intro t h; cases h; rfl) (by intro sel h; cases h; rfl)

/-- C4: with an empty search text, a non-empty category selection `c` keeps exactly
the records whose category is the string `c` (compared code unit by code unit), so a
record whose category is missing, null or empty is not kept; with the empty selection
such a record is kept. -/
theorem handleSearch_category_only (lower : JsString → JsString) (hl : lower [] = [])
    (app : App) (c : JsString) (hbox : ∀ t, app.searchBox = some t → t = [])
    (hsel : selectedCategoryOf app = c) :
    ∃ app', handleSearch lower app = .ok app' ∧
      (c ≠ [] →
        app'.filteredGlyphs = app.glyphData.filter (fun g => decide (CategoryMatch c g)) ∧
        ∀ g, g.category = JsText.undefined ∨ g.category = JsText.null ∨
            g.category = JsText.str [] → g ∉ app'.filteredGlyphs) ∧
      (c = [] →
        ∀ g ∈ app.glyphData, g.category = JsText.undefined ∨ g.category = JsText.null ∨
            g.category = JsText.str [] → g ∈ app'.filteredGlyphs) := by
  obtain ⟨app', hok, hf⟩ := handleSearch_filteredGlyphs lower app
  rw [searchTermOf_empty lower hl app hbox, hsel] at hf
  have hf2 : app'.filteredGlyphs = categoryFiltered c app.glyphData := by
    rw [hf]; simp [textFiltered]
  refine ⟨app', hok, ?_, ?_⟩
  · intro hc
    have hres : app'.filteredGlyphs =
        app.glyphData.filter (fun g => decide (CategoryMatch c g)) := by
      rw [hf2]; simp [categoryFiltered, hc, CategoryMatch]
    refine ⟨hres, ?_⟩
    intro g hg hmem
    rw [hres, List.mem_filter] at hmem
    have hm : g.category = JsText.str c := of_decide_eq_true hmem.2
    rcases hg with h | h | h
    · rw [h] at hm; cases hm
    · rw [h] at hm; cases hm
    · rw [h] at hm
      exact hc (JsText.str.inj hm).symm
  · intro hc g hg _
    rw [hf2]
    simpa [categoryFiltered, hc] using hg

/-- Witness of C4: the category "Power" over the two example records. -/
theorem handleSearch_category_only_witness :
    ∃ app', handleSearch asciiLower (appWith [ankh, was] [] (utf16 "Power")) = .ok app' ∧
      (utf16 "Power" ≠ [] →
        app'.filteredGlyphs = (appWith [ankh, was] [] (utf16 "Power")).glyphData.filter
          (fun g => decide (CategoryMatch (utf16 "Power") g)) ∧
        ∀ g, g.category = JsText.undefined ∨ g.category = JsText.null ∨
            g.category = JsText.str [] → g ∉ app'.filteredGlyphs) ∧
      (utf16 "Power" = [] →
        ∀ g ∈ (appWith [ankh, was] [] (utf16 "Power")).glyphData,
          g.category = JsText.undefined ∨ g.category = JsText.null ∨
            g.category = JsText.str [] → g ∈ app'.filteredGlyphs) :=
  handleSearch_category_only asciiLower rfl (appWith [ankh, was] [] (utf16 "Power"))
    (utf16 "Power") (by intro t h; cases h; rfl) rfl

/-! ## Lemmas on the category facet -/

theorem strLt_irrefl (a : JsString) : strLt a a = false := by
  induction a with
  | nil => rfl
  | cons x xs ih => simp [strLt, ih]

theorem strLt_asymm (a b : JsString) (h : strLt a b = true) : strLt b a = false := by
  induction a generalizing b with
  | nil => cases b <;> simp_all [strLt]
  | cons x xs ih =>
    cases b with
    | nil => simp [strLt] at h
    | cons y ys =>
      simp only [strLt, Bool.or_eq_true, decide_eq_true_eq, Bool.and_eq_true, beq_iff_eq] at h
      simp only [strLt, Bool.or_eq_false_iff, decide_eq_false_iff_not, Bool.and_eq_false_imp,
        beq_iff_eq]
      rcases h with h | ⟨h1, h2⟩
      · exact ⟨by omega, fun e => by omega⟩
      · exact ⟨by omega, fun _ => ih ys h2⟩

theorem strLt_trans (a b c : JsString) (hab : strLt a b = true) (hbc : strLt b c = true) :
    strLt a c = true := by
  induction a generalizing b c with
  | nil =>
    cases b with
    | nil => simp [strLt] at hab
    | cons y ys =>
      cases c with
      | nil => simp [strLt] at hbc
      | cons z zs => simp [strLt]
  | cons x xs ih =>
    cases b with
    | nil => simp [strLt] at hab
    | cons y ys =>
      cases c with
      | nil => simp [strLt] at hbc
      | cons z zs =>
        simp only [strLt, Bool.or_eq_true, decide_eq_true_eq, Bool.and_eq_true,
          beq_iff_eq] at hab hbc ⊢
        rcases hab with h | ⟨h1, h2⟩ <;> rcases hbc with k | ⟨k1, k2⟩
        · exact Or.inl (by omega)
        · exact Or.inl (by omega)
        · exact Or.inl (by omega)
        · exact Or.inr ⟨by omega, ih ys zs h2 k2⟩

theorem strLt_connected (a b : JsString) (hab : strLt a b = false)
    (hba : strLt b a = false) : a = b := by
  induction a generalizing b with
  | nil => cases b <;> simp_all [strLt]
  | cons x xs ih =>
    cases b with
    | nil => simp [strLt] at hba
    | cons y ys =>
      simp only [strLt, Bool.or_eq_false_iff, decide_eq_false_iff_not, Bool.and_eq_false_imp,
        beq_iff_eq] at hab hba
      have hxy : x = y := by omega
      rw [hxy, ih ys (hab.2 hxy) (hba.2 hxy.symm)]

theorem strLt_neg_trans (a b c : JsString) (hba : strLt b a = false)
    (hcb : strLt c b = false) : strLt c a = false := by
  by_contra h
  have hca : strLt c a = true := by simpa using h
  by_cases hab : strLt a b = true
  · have := strLt_trans c a b hca hab
    simp [this] at hcb
  · have hab2 : strLt a b = false := by simpa using hab
    have e := strLt_connected a b hab2 hba
    subst e
    simp [hca] at hcb

theorem strLt_false_or (a b : JsString) : strLt b a = false ∨ strLt a b = false := by
  by_cases h : strLt a b = true
  · exact Or.inl (strLt_asymm a b h)
  · exact Or.inr (by simpa using h)

theorem sortLe_total (x y : JsText) : sortLe x y = true ∨ sortLe y x = true := by
  cases x <;> cases y <;> simp only [sortLe, Bool.not_eq_true', true_or, or_true] <;>
    exact strLt_false_or _ _

theorem sortLe_trans (x y z : JsText) (hxy : sortLe x y = true) (hyz : sortLe y z = true) :
    sortLe x z = true := by
  cases x <;> cases y <;> cases z <;>
    simp only [sortLe, Bool.not_eq_true', Bool.false_eq_true] at hxy hyz ⊢ <;>
    exact strLt_neg_trans _ _ _ hxy hyz

instance : IsTotal JsText (fun x y => sortLe x y = true) := ⟨sortLe_total⟩

instance : IsTrans JsText (fun x y => sortLe x y = true) := ⟨sortLe_trans⟩

theorem sort_sorted (xs : List JsText) :
    (sort xs).Pairwise (fun x y => sortLe x y = true) :=
  List.sorted_insertionSort (fun x y => sortLe x y = true) xs

theorem sort_perm (xs : List JsText) : (sort xs).Perm xs :=
  List.perm_insertionSort (fun x y => sortLe x y = true) xs

theorem newSet_aux (xs acc : List JsText) :
    (acc.Nodup →
      (xs.foldl (fun acc x => if x ∈ acc then acc else acc ++ [x]) acc).Nodup) ∧
    ∀ x, x ∈ xs.foldl (fun acc x => if x ∈ acc then acc else acc ++ [x]) acc ↔
      x ∈ acc ∨ x ∈ xs := by
  induction xs generalizing acc with
  | nil => simp
  | cons y ys ih =>
    simp only [List.foldl_cons]
    by_cases hy : y ∈ acc
    · rw [if_pos hy]
      refine ⟨(ih acc).1, fun x => ?_⟩
      rw [(ih acc).2 x, List.mem_cons]
      constructor
      · rintro (h | h)
        · exact Or.inl h
        · exact Or.inr (Or.inr h)
      · rintro (h | h | h)
        · exact Or.inl h
        · exact Or.inl (h ▸ hy)
        · exact Or.inr h
    · rw [if_neg hy]
      refine ⟨fun hn => (ih _).1 ?_, fun x => ?_⟩
      · rw [List.nodup_append]
        refine ⟨hn, List.nodup_singleton y, ?_⟩
        intro a ha hb
        rw [List.mem_singleton] at hb
        exact hy (hb ▸ ha)
      · rw [(ih _).2 x, List.mem_append, List.mem_singleton, List.mem_cons]
        tauto

theorem newSet_nodup (xs : List JsText) : (newSet xs).Nodup :=
  (newSet_aux xs []).1 List.nodup_nil

theorem mem_newSet (xs : List JsText) (x : JsText) : x ∈ newSet xs ↔ x ∈ xs := by
  unfold newSet
  rw [(newSet_aux xs []).2 x]
  simp

theorem trim_isEmpty (s : JsString) :
    (trim s).isEmpty = true ↔ ∀ u ∈ s, isWhiteSpace u = true := by
  unfold trim
  rw [List.isEmpty_iff, List.reverse_eq_nil_iff, List.dropWhile_eq_nil_iff]
  constructor
  · intro h
    have h2 : ∀ u ∈ s.dropWhile isWhiteSpace, isWhiteSpace u = true :=
      fun u hu => h u (List.mem_reverse.mpr hu)
    have h3 : (s.dropWhile isWhiteSpace).dropWhile isWhiteSpace = [] :=
      List.dropWhile_eq_nil_iff.mpr h2
    rw [List.dropWhile_idempotent] at h3
    exact List.dropWhile_eq_nil_iff.mp h3
  · intro h u hu
    have h3 : s.dropWhile isWhiteSpace = [] := List.dropWhile_eq_nil_iff.mpr h
    rw [h3] at hu
    simp at hu

theorem categoryKept_ok (cat : JsText) : categoryKept cat = .ok (keepsCategory cat) := by
  cases cat with
  | undefined => rfl
  | null => rfl
  | str s =>
    cases s with
    | nil => rfl
    | cons u us => simp [categoryKept, keepsCategory, JsText.truthy, JsText.trim]

/-- The value of `categories`, spelled out; the computation never throws. -/
theorem categories_ok (glyphData : List Glyph) :
    categories glyphData =
      .ok (sort ((newSet (glyphData.map (fun glyph => glyph.category))).filter
        keepsCategory)) := by
  unfold categories
  rw [filterE_ok categoryKept keepsCategory _ (fun x _ => categoryKept_ok x)]

theorem keepsCategory_iff (x : JsText) :
    keepsCategory x = true ↔
      ∃ c, x = JsText.str c ∧ c ≠ [] ∧ ¬ ∀ u ∈ c, isWhiteSpace u = true := by
  cases x with
  | undefined => simp [keepsCategory]
  | null => simp [keepsCategory]
  | str s =>
    have ht := trim_isEmpty s
    simp only [keepsCategory, Bool.and_eq_true, Bool.not_eq_true', JsText.str.injEq,
      exists_eq_left']
    constructor
    · rintro ⟨h1, h2⟩
      refine ⟨fun e => by simp [e] at h1, fun hall => ?_⟩
      rw [ht.mpr hall] at h2
      cases h2
    · rintro ⟨h1, h2⟩
      refine ⟨by cases s <;> simp_all, ?_⟩
      cases he : (trim s).isEmpty with
      | false => rfl
      | true => exact absurd (ht.mp he) h2

/-! ## The category facet (C6) -/

/-- C6: the category list of `populateCategoryFilter` is computed without error, is
strictly ascending in the code-unit order of strings (hence sorted and free of
duplicates), and holds exactly the category strings of the records that are not
empty and not made of white space only (a missing or null category is no string);
these strings become the options of the select after the "all" option. -/
theorem categories_sorted_distinct (glyphData : List Glyph) :
    ∃ cs : List JsString,
      categories glyphData = .ok (cs.map JsText.str) ∧
      cs.Pairwise (fun a b => strLt a b = true) ∧
      (∀ c, c ∈ cs ↔
        (∃ g ∈ glyphData, g.category = JsText.str c) ∧ c ≠ [] ∧
          ¬ ∀ u ∈ c, isWhiteSpace u = true) ∧
      ∀ (app : App) (sel : SelectElement),
        app.glyphData = glyphData → app.categoryFilter = some sel →
        populateCategoryFilter app =
          .ok { app with categoryFilter := some (SelectElement.mk [] ([] :: cs)) } := by
  have hcat := categories_ok glyphData
  generalize hK : (newSet (glyphData.map (fun glyph => glyph.category))).filter
    keepsCategory = K at hcat
  have hKnodup : K.Nodup := by
    rw [← hK]; exact (newSet_nodup _).filter _
  have hLmem : ∀ x, x ∈ sort K ↔ x ∈ K := fun x => (sort_perm K).mem_iff
  have hLstr : ∀ x ∈ sort K, JsText.str x.toJsString = x := by
    intro x hx
    have hx2 : x ∈ K := (hLmem x).mp hx
    rw [← hK] at hx2
    obtain ⟨c, hc, _⟩ := (keepsCategory_iff x).mp (List.mem_filter.mp hx2).2
    rw [hc]; rfl
  have hmap : ((sort K).map JsText.toJsString).map JsText.str = sort K := by
    rw [List.map_map]
    conv_rhs => rw [← List.map_id (sort K)]
    exact List.map_congr_left (fun x hx => hLstr x hx)
  refine ⟨(sort K).map JsText.toJsString, ?_, ?_, ?_, ?_⟩
  · rw [hcat, hmap]
  · rw [List.pairwise_map]
    have hnd : (sort K).Nodup := (sort_perm K).nodup_iff.mpr hKnodup
    have hboth := (sort_sorted K).and hnd
    refine hboth.imp_of_mem ?_
    intro x y hx hy hxy
    obtain ⟨hle, hne⟩ := hxy
    have ex := hLstr x hx
    have ey := hLstr y hy
    rw [← ex, ← ey] at hle
    simp only [sortLe, JsText.toJsString, Bool.not_eq_true'] at hle
    by_contra hlt
    have hlt2 : strLt x.toJsString y.toJsString = false := by simpa using hlt
    have e := strLt_connected _ _ hlt2 hle
    apply hne
    rw [← ex, ← ey, e]
  · intro c
    rw [← List.mem_map_of_injective (f := JsText.str) (fun a b h => JsText.str.inj h), hmap,
      hLmem, ← hK, List.mem_filter, mem_newSet, keepsCategory_iff]
    constructor
    · rintro ⟨hmem, c2, hc2, hne, hws⟩
      cases hc2
      obtain ⟨g, hg, hgc⟩ := List.mem_map.mp hmem
      exact ⟨⟨g, hg, hgc⟩, hne, hws⟩
    · rintro ⟨⟨g, hg, hgc⟩, hne, hws⟩
      exact ⟨List.mem_map.mpr ⟨g, hg, hgc⟩, c, rfl, hne, hws⟩
  · intro app sel hG hsel
    unfold populateCategoryFilter
    rw [hsel, hG, hcat]

/-! ## Lemmas on loading and on runs -/

theorem showError_fields (message : JsString) (app : App) :
    (showError message app).glyphData = app.glyphData ∧
    (showError message app).idealsData = app.idealsData ∧
    (showError message app).filteredGlyphs = app.filteredGlyphs ∧
    (showError message app).currentSearchTerm = app.currentSearchTerm ∧
    (showError message app).currentCategory = app.currentCategory := by
  unfold showError
  cases app.resultsContainer <;> simp

theorem populateCategoryFilter_ok (app : App) :
    ∃ app2, populateCategoryFilter app = .ok app2 ∧
      app2.glyphData = app.glyphData ∧
      app2.idealsData = app.idealsData ∧
      app2.filteredGlyphs = app.filteredGlyphs ∧
      app2.currentSearchTerm = app.currentSearchTerm ∧
      app2.currentCategory = app.currentCategory ∧
      app2.resultsContainer = app.resultsContainer := by
  unfold populateCategoryFilter
  cases app.categoryFilter with
  | none => exact ⟨app, rfl, rfl, rfl, rfl, rfl, rfl, rfl⟩
  | some sel =>
    rw [categories_ok]
    exact ⟨_, rfl, rfl, rfl, rfl, rfl, rfl, rfl⟩

theorem loadGlyphs_body (data : List Glyph) (app : App) :
    (loadGlyphs (.body data) app).glyphData = data ∧
    (loadGlyphs (.body data) app).filteredGlyphs = data := by
  obtain ⟨app2, hok, hg, _, hf, _⟩ :=
    populateCategoryFilter_ok { app with glyphData := data, filteredGlyphs := data }
  simp only [loadGlyphs, hok]
  have hd := displayGlyphs_fields app2.glyphData app2
  exact ⟨hd.1.trans hg, hd.2.2.1.trans hf⟩

theorem loadGlyphs_failed (response : FetchOutcome (List Glyph)) (app : App)
    (h : ∀ data, response ≠ .body data) :
    (loadGlyphs response app).glyphData = app.glyphData ∧
    (loadGlyphs response app).filteredGlyphs = app.filteredGlyphs := by
  have hs := showError_fields (utf16 "The glyphs remain veiled. Please try again.") app
  cases response with
  | rejected => exact ⟨hs.1, hs.2.2.1⟩
  | notOk => exact ⟨hs.1, hs.2.2.1⟩
  | body data => exact absurd rfl (h data)

theorem textFiltered_sublist (lower : JsString → JsString) (term : JsString)
    (glyphs : List Glyph) : (textFiltered lower term glyphs).Sublist glyphs := by
  obtain ⟨p, hp⟩ := textFiltered_as_filter lower term
  rw [hp]; exact List.filter_sublist glyphs

theorem categoryFiltered_sublist (category : JsString) (glyphs : List Glyph) :
    (categoryFiltered category glyphs).Sublist glyphs := by
  obtain ⟨q, hq⟩ := categoryFiltered_as_filter category
  rw [hq]; exact List.filter_sublist glyphs

theorem handleSearch_glyphData (lower : JsString → JsString) (app : App) :
    ∃ app', handleSearch lower app = .ok app' ∧
      app'.glyphData = app.glyphData ∧ app'.idealsData = app.idealsData ∧
      app'.filteredGlyphs.Sublist app.glyphData :=
  ⟨_, handleSearch_ok lower app, (displayGlyphs_fields _ _).1, (displayGlyphs_fields _ _).2.1,
    by
      rw [(displayGlyphs_fields _ _).2.2.1]
      exact (categoryFiltered_sublist _ _).trans (textFiltered_sublist _ _ _)⟩

theorem step_invariant (lower : JsString → JsString) (a : Action) (app : App)
    (h : app.filteredGlyphs.Sublist app.glyphData) :
    ∃ app', step lower a app = .ok app' ∧ app'.filteredGlyphs.Sublist app'.glyphData := by
  cases a with
  | input text => exact ⟨_, rfl, h⟩
  | select category => exact ⟨_, rfl, h⟩
  | search =>
    obtain ⟨app', hok, hg, _, hs⟩ := handleSearch_glyphData lower app
    exact ⟨app', hok, hg ▸ hs⟩
  | glyphsLoaded response =>
    refine ⟨_, rfl, ?_⟩
    cases response with
    | body data =>
      rw [(loadGlyphs_body data app).1, (loadGlyphs_body data app).2]
    | rejected =>
      have hf := loadGlyphs_failed .rejected app (fun d e => by cases e)
      rw [hf.1, hf.2]; exact h
    | notOk =>
      have hf := loadGlyphs_failed .notOk app (fun d e => by cases e)
      rw [hf.1, hf.2]; exact h

theorem run_invariant (lower : JsString → JsString) (acts : List Action) (app : App)
    (h : app.filteredGlyphs.Sublist app.glyphData) :
    ∃ app', run lower acts app = .ok app' ∧ app'.filteredGlyphs.Sublist app'.glyphData := by
  induction acts generalizing app with
  | nil => exact ⟨app, rfl, h⟩
  | cons a rest ih =>
    obtain ⟨app1, hstep, h1⟩ := step_invariant lower a app h
    obtain ⟨app2, hrun, h2⟩ := ih app1 h1
    exact ⟨app2, by simp only [run, hstep, hrun], h2⟩

/-! ## The result is a view of the collection (C5) -/

/-- C5: every sequence of user inputs, `handleSearch` calls and completions of
`loadGlyphs` (delivered, not ok, or rejected), started in the state the constructor
sets up, runs without error and ends in a state whose `filteredGlyphs` is a
subsequence of its `glyphData`, in the same relative order. -/
theorem filteredGlyphs_sublist_glyphData (lower : JsString → JsString)
    (searchBox : Option JsString) (categoryFilter : Option SelectElement)
    (resultsContainer : Option Display) (acts : List Action) :
    ∃ app, run lower acts (constructor searchBox categoryFilter resultsContainer) = .ok app ∧
      app.filteredGlyphs.Sublist app.glyphData :=
  run_invariant lower acts _ (List.Sublist.refl _)

/-! ## Missing fields (C7) -/

theorem textFiltered_mem (lower : JsString → JsString) (term : JsString) (hterm : term ≠ [])
    (glyphs : List Glyph) (g : Glyph) (h : g ∈ textFiltered lower term glyphs) :
    matchesText lower term g = true := by
  unfold textFiltered at h
  rw [if_pos hterm] at h
  exact (List.mem_filter.mp h).2

/-- C7: for every record, whichever of its searchable fields are missing, null or
empty, and every non-empty term, the text-match test returns a boolean (it does not
throw); a positive answer is always due to a present, non-empty field value that
contains the term; and a record whose searchable values are all missing, null or
empty is rejected by the test and is in no result of `handleSearch` for that term. -/
theorem matchesSearch_missing_fields (lower : JsString → JsString) (term : JsString)
    (hterm : term ≠ []) (g : Glyph) :
    ∃ b, matchesSearch lower term g = .ok b ∧
      (b = true → ∃ s ∈ presentTexts g, s ≠ [] ∧ term <:+: lower s) ∧
      ((∀ f ∈ searchableValues g,
          f = JsText.undefined ∨ f = JsText.null ∨ f = JsText.str []) →
        b = false ∧
        ∀ app app', searchTermOf lower app = term → handleSearch lower app = .ok app' →
          g ∉ app'.filteredGlyphs) := by
  refine ⟨matchesText lower term g, matchesSearch_ok lower term g,
    (matchesText_iff lower term g).mp, ?_⟩
  intro hall
  have hfalse : matchesText lower term g = false := by
    cases hm : matchesText lower term g with
    | false => rfl
    | true =>
      obtain ⟨s, hs, hne, _⟩ := (matchesText_iff lower term g).mp hm
      rcases hall _ ((mem_presentTexts g s).mp hs) with h | h | h
      · cases h
      · cases h
      · exact absurd (JsText.str.inj h) hne
  refine ⟨hfalse, ?_⟩
  intro app app' happ hok hmem
  obtain ⟨app2, hok2, hf⟩ := handleSearch_filteredGlyphs lower app
  rw [hok] at hok2
  cases hok2
  rw [hf, happ] at hmem
  have h1 := (categoryFiltered_sublist _ _).subset hmem
  rw [textFiltered_mem lower term hterm _ g h1] at hfalse
  cases hfalse

/-- Witness of C7: the term "a" on the record with every key missing. -/
theorem matchesSearch_missing_fields_witness :
    ∃ b, matchesSearch asciiLower (utf16 "a") emptyGlyph = .ok b ∧
      (b = true → ∃ s ∈ presentTexts emptyGlyph, s ≠ [] ∧ utf16 "a" <:+: asciiLower s) ∧
      ((∀ f ∈ searchableValues emptyGlyph,
          f = JsText.undefined ∨ f = JsText.null ∨ f = JsText.str []) →
        b = false ∧
        ∀ app app', searchTermOf asciiLower app = utf16 "a" →
          handleSearch asciiLower app = .ok app' → emptyGlyph ∉ app'.filteredGlyphs) :=
  matchesSearch_missing_fields asciiLower (utf16 "a") (by decide) emptyGlyph

/-! ## The worked example (C8) -/

theorem matchesText_congr (lower lower2 : JsString → JsString) (term : JsString) (g : Glyph)
    (h : ∀ s ∈ presentTexts g, lower s = lower2 s) :
    matchesText lower term g = matchesText lower2 term g := by
  rw [Bool.eq_iff_iff, matchesText_iff, matchesText_iff]
  constructor
  · rintro ⟨s, hs, hne, hin⟩
    exact ⟨s, hs, hne, h s hs ▸ hin⟩
  · rintro ⟨s, hs, hne, hin⟩
    exact ⟨s, hs, hne, (h s hs).symm ▸ hin⟩

theorem textFiltered_congr (lower lower2 : JsString → JsString) (term : JsString)
    (glyphs : List Glyph) (h : ∀ g ∈ glyphs, ∀ s ∈ presentTexts g, lower s = lower2 s) :
    textFiltered lower term glyphs = textFiltered lower2 term glyphs := by
  unfold textFiltered
  split
  · exact List.filter_congr (fun g hg => matchesText_congr lower lower2 term g (h g hg))
  · rfl

/-- C8: over the records Ankh (category "Life", primary meaning "eternal life") and Was
(category "Power", primary meaning "dominion"), the search "life" without a category
yields Ankh alone, the category "Power" without a search yields Was alone, and the
search "zzz" yields nothing; `lower` is any lower-casing that acts on ASCII text as
`asciiLower` does. -/
theorem handleSearch_example (lower : JsString → JsString)
    (hascii : ∀ s : JsString, (∀ u ∈ s, u < 128) → lower s = asciiLower s)
    (app : App) (hG : app.glyphData = [ankh, was]) :
    (∃ a, handleSearch lower (app.withInputs (utf16 "life") []) = .ok a ∧
      a.filteredGlyphs = [ankh]) ∧
    (∃ a, handleSearch lower (app.withInputs [] (utf16 "Power")) = .ok a ∧
      a.filteredGlyphs = [was]) ∧
    (∃ a, handleSearch lower (app.withInputs (utf16 "zzz") []) = .ok a ∧
      a.filteredGlyphs = []) := by
  have hdata : ∀ g ∈ [ankh, was], ∀ s ∈ presentTexts g, lower s = asciiLower s := by
    intro g hg s hs
    apply hascii
    revert s
    revert g
    decide
  have key : ∀ t c : JsString, (∀ u ∈ t, u < 128) →
      ∃ a, handleSearch lower (app.withInputs t c) = .ok a ∧
        a.filteredGlyphs =
          categoryFiltered c (textFiltered asciiLower (asciiLower t) [ankh, was]) := by
    intro t c ht
    obtain ⟨a, hok, hf⟩ := handleSearch_filteredGlyphs lower (app.withInputs t c)
    refine ⟨a, hok, ?_⟩
    rw [hf, searchTermOf_withInputs, selectedCategoryOf_withInputs, hascii t ht]
    have hG2 : (app.withInputs t c).glyphData = [ankh, was] := hG
    rw [hG2, textFiltered_congr lower asciiLower _ _ hdata]
  refine ⟨?_, ?_, ?_⟩
  · obtain ⟨a, hok, hf⟩ := key (utf16 "life") [] (by decide)
    exact ⟨a, hok, hf.trans (by decide)⟩
  · obtain ⟨a, hok, hf⟩ := key [] (utf16 "Power") (by decide)
    exact ⟨a, hok, hf.trans (by decide)⟩
  · obtain ⟨a, hok, hf⟩ := key (utf16 "zzz") [] (by decide)
    exact ⟨a, hok, hf.trans (by decide)⟩

/-- Witness of C8: the example with `asciiLower` as the lower-casing. -/
theorem handleSearch_example_witness :
    (∃ a, handleSearch asciiLower ((appWith [ankh, was] [] []).withInputs (utf16 "life") [])
        = .ok a ∧ a.filteredGlyphs = [ankh]) ∧
    (∃ a, handleSearch asciiLower ((appWith [ankh, was] [] []).withInputs [] (utf16 "Power"))
        = .ok a ∧ a.filteredGlyphs = [was]) ∧
    (∃ a, handleSearch asciiLower ((appWith [ankh, was] [] []).withInputs (utf16 "zzz") [])
        = .ok a ∧ a.filteredGlyphs = []) :=
  handleSearch_example asciiLower (fun _ _ => rfl) (appWith [ankh, was] [] []) rfl

/-! ## Tracking of searches (C9) -/

theorem trackedSymbol_eq_display (g : Glyph)
    (h : g.unicode_char.truthy = true ∨
      (g.unicode.truthy = false ∧ g.symbol.truthy = true)) :
    trackedSymbol g = (glyphCard g).symbol := by
  unfold trackedSymbol glyphCard
  rcases h with h | ⟨h1, h2⟩
  · simp [JsText.orElse, h]
  · cases hu : g.unicode_char.truthy <;> simp [JsText.orElse, hu, h1, h2]

/-- C9, as the claim states it, fails: for the text "a" and the category "Power" over two
records that both contain "a", the result is the second record alone, while the one
request sent lists the symbols of both records. -/
theorem handleSearch_tracking_counterexample :
    ∃ a, handleSearch asciiLower
        (appWith [ankhSymbol, wasSymbol] (utf16 "a") (utf16 "Power")) = .ok a ∧
      a.filteredGlyphs = [wasSymbol] ∧
      a.interactions.map (fun e => e.related_glyphs) =
        [JsArray.arr [JsText.str (utf16 "☥"), JsText.str (utf16 "𓌀")]] ∧
      a.interactions.map (fun e => e.related_glyphs) ≠
        [JsArray.arr (a.filteredGlyphs.map (fun g => (glyphCard g).symbol))] :=
  ⟨_, handleSearch_ok asciiLower _, by decide, by decide, by decide⟩

/-- C9 (amended): a `handleSearch` call whose lower-cased search text is non-empty sends
exactly one request, of type "glyph_search", whose user input is the lower-cased text
and whose related glyphs hold one entry per record that matches the text (the records
`handleSearch` yields for the same text without a category), in order; the entry is the
display symbol of the record whenever the record has a non-empty `unicode_char`, or an
empty `unicode` and a non-empty `symbol`.  A call whose lower-cased search text is empty
sends no request. -/
theorem handleSearch_tracking (lower : JsString → JsString) (app : App) (t c : JsString) :
    ∃ a a0, handleSearch lower (app.withInputs t c) = .ok a ∧
      handleSearch lower (app.withInputs t []) = .ok a0 ∧
      (lower t = [] → a.interactions = app.interactions) ∧
      (lower t ≠ [] → ∃ e rs,
        a.interactions = app.interactions ++ [e] ∧
        e.action_type = utf16 "glyph_search" ∧
        e.user_input = lower t ∧
        e.related_glyphs = JsArray.arr rs ∧
        List.Forall₂
          (fun g r =>
            (g.unicode_char.truthy = true ∨
              (g.unicode.truthy = false ∧ g.symbol.truthy = true)) →
            r = (glyphCard g).symbol)
          a0.filteredGlyphs rs) := by
  obtain ⟨a0, hok0, hf0⟩ := handleSearch_filteredGlyphs lower (app.withInputs t [])
  refine ⟨_, a0, handleSearch_ok lower (app.withInputs t c), hok0, ?_, ?_⟩
  · intro ht
    rw [(displayGlyphs_fields _ _).2.2.2.2.2.2.2.2]
    show (if searchTermOf lower (app.withInputs t c) ≠ [] then _ else app.interactions) = _
    rw [searchTermOf_withInputs, if_neg (not_not.mpr ht)]
  · intro ht
    refine ⟨searchEvent (lower t) (textFiltered lower (lower t) app.glyphData),
      (textFiltered lower (lower t) app.glyphData).map trackedSymbol, ?_, rfl, rfl, rfl, ?_⟩
    · rw [(displayGlyphs_fields _ _).2.2.2.2.2.2.2.2]
      show (if searchTermOf lower (app.withInputs t c) ≠ [] then
          app.interactions ++ [searchEvent (searchTermOf lower (app.withInputs t c))
            (textFiltered lower (searchTermOf lower (app.withInputs t c)) app.glyphData)]
        else app.interactions) = _
      rw [searchTermOf_withInputs, if_pos ht]
    · rw [hf0, searchTermOf_withInputs, selectedCategoryOf_withInputs]
      have hG : (app.withInputs t []).glyphData = app.glyphData := rfl
      rw [hG]
      have hc : ∀ l : List Glyph, categoryFiltered [] l = l := fun l => by
        simp [categoryFiltered]
      rw [hc, List.forall₂_map_right_iff, List.forall₂_same]
      intro g _ hg
      exact trackedSymbol_eq_display g hg

/-! ## Idempotence (C10) -/

theorem displayGlyphs_resultsContainer (glyphs : List Glyph) (app : App) :
    (displayGlyphs glyphs app).resultsContainer =
      app.resultsContainer.map (fun _ =>
        if glyphs.length = 0 then Display.noResults
        else Display.cards (glyphs.map glyphCard)) := by
  unfold displayGlyphs
  cases h : app.resultsContainer with
  | none => simp [h]
  | some d => by_cases hl : glyphs.length = 0 <;> simp [hl]

theorem App.eq_of_fields (a b : App) (h1 : a.glyphData = b.glyphData)
    (h2 : a.idealsData = b.idealsData) (h3 : a.filteredGlyphs = b.filteredGlyphs)
    (h4 : a.currentSearchTerm = b.currentSearchTerm)
    (h5 : a.currentCategory = b.currentCategory) (h6 : a.isLoading = b.isLoading)
    (h7 : a.searchBox = b.searchBox) (h8 : a.categoryFilter = b.categoryFilter)
    (h9 : a.resultsContainer = b.resultsContainer)
    (h10 : a.interactions = b.interactions) : a = b := by
  cases a; cases b; simp_all

/-- Every field of the state `handleSearch` returns, except the requests sent. -/
theorem handleSearch_fields (lower : JsString → JsString) (app : App) :
    ∃ a, handleSearch lower app = .ok a ∧
      a.glyphData = app.glyphData ∧ a.idealsData = app.idealsData ∧
      a.filteredGlyphs = categoryFiltered (selectedCategoryOf app)
        (textFiltered lower (searchTermOf lower app) app.glyphData) ∧
      a.currentSearchTerm = searchTermOf lower app ∧
      a.currentCategory = selectedCategoryOf app ∧
      a.isLoading = app.isLoading ∧ a.searchBox = app.searchBox ∧
      a.categoryFilter = app.categoryFilter ∧
      a.resultsContainer = app.resultsContainer.map (fun _ =>
        if (categoryFiltered (selectedCategoryOf app)
            (textFiltered lower (searchTermOf lower app) app.glyphData)).length = 0
        then Display.noResults
        else Display.cards ((categoryFiltered (selectedCategoryOf app)
            (textFiltered lower (searchTermOf lower app) app.glyphData)).map glyphCard)) := by
  refine ⟨_, handleSearch_ok lower app, ?_⟩
  obtain ⟨h1, h2, h3, h4, h5, h6, h7, h8, _⟩ := displayGlyphs_fields
    (categoryFiltered (selectedCategoryOf app)
      (textFiltered lower (searchTermOf lower app) app.glyphData))
    { app with
      currentSearchTerm := searchTermOf lower app,
      currentCategory := selectedCategoryOf app,
      filteredGlyphs :=
        categoryFiltered (selectedCategoryOf app)
          (textFiltered lower (searchTermOf lower app) app.glyphData),
      interactions :=
        if searchTermOf lower app ≠ [] then
          app.interactions ++
            [searchEvent (searchTermOf lower app)
              (textFiltered lower (searchTermOf lower app) app.glyphData)]
        else app.interactions }
  exact ⟨h1, h2, h3, h4, h5, h6, h7, h8, displayGlyphs_resultsContainer _ _⟩

/-- C10: `handleSearch` leaves `glyphData` and `idealsData` as they are, and a second
call on unchanged inputs returns with the same `filteredGlyphs`, `currentSearchTerm`
and `currentCategory` as the first; the state after the second call differs from the
state after the first at most in the list of requests sent. -/
theorem handleSearch_idempotent (lower : JsString → JsString) (app : App) :
    ∃ a1 a2, handleSearch lower app = .ok a1 ∧ handleSearch lower a1 = .ok a2 ∧
      a1.glyphData = app.glyphData ∧ a1.idealsData = app.idealsData ∧
      a2.glyphData = app.glyphData ∧ a2.idealsData = app.idealsData ∧
      a2.filteredGlyphs = a1.filteredGlyphs ∧
      a2.currentSearchTerm = a1.currentSearchTerm ∧
      a2.currentCategory = a1.currentCategory ∧
      { a2 with interactions := a1.interactions } = a1 := by
  obtain ⟨a1, hok1, g1, i1, f1, s1, c1, l1, b1, k1, r1⟩ := handleSearch_fields lower app
  obtain ⟨a2, hok2, g2, i2, f2, s2, c2, l2, b2, k2, r2⟩ := handleSearch_fields lower a1
  have hs : searchTermOf lower a1 = searchTermOf lower app := by
    unfold searchTermOf; rw [b1]
  have hc : selectedCategoryOf a1 = selectedCategoryOf app := by
    unfold selectedCategoryOf; rw [k1]
  rw [hs, hc, g1] at f2 r2
  rw [hs] at s2
  rw [hc] at c2
  have hr : a2.resultsContainer = a1.resultsContainer := by
    rw [r2, r1, Option.map_map]; rfl
  refine ⟨a1, a2, hok1, hok2, g1, i1, g2.trans g1, i2.trans i1, f2.trans f1.symm,
    s2.trans s1.symm, c2.trans c1.symm, ?_⟩
  exact App.eq_of_fields _ _ g2 i2 (f2.trans f1.symm) (s2.trans s1.symm) (c2.trans c1.symm)
    l2 b2 k2 hr rfl

/-! ## Display values (C11) -/

theorem truthy_iff (v : JsText) : v.truthy = true ↔ ∃ s, v = JsText.str s ∧ s ≠ [] := by
  cases v with
  | undefined => simp [JsText.truthy]
  | null => simp [JsText.truthy]
  | str s => cases s <;> simp [JsText.truthy]

theorem orElse_truthy (a b : JsText) (hb : b.truthy = true) : (a.orElse b).truthy = true := by
  unfold JsText.orElse
  by_cases ha : a.truthy = true
  · rw [if_pos ha]; exact ha
  · rw [if_neg ha]; exact hb

/-- C11: every value `displayGlyphs` derives for a card (symbol, name, transliteration,
meaning, category, mystical significance) is a non-empty string, namely the first
present and non-empty field of its chain, else the fallback text of the chain; a missing
or null `layered_interpretations` gives the empty list; and these are the values of the
cards `displayGlyphs` renders. -/
theorem glyphCard_values (g : Glyph) :
    (∀ v ∈ [(glyphCard g).symbol, (glyphCard g).name, (glyphCard g).transliteration,
        (glyphCard g).meaning, (glyphCard g).category, (glyphCard g).mysticalSignificance],
      ∃ s, v = JsText.str s ∧ s ≠ []) ∧
    (glyphCard g).symbol =
      (if g.unicode_char.truthy then g.unicode_char
       else if g.unicode.truthy then g.unicode
       else if g.symbol.truthy then g.symbol
       else JsText.str (utf16 "𓈖")) ∧
    (glyphCard g).name =
      (if g.name.truthy then g.name
       else if g.primary_meaning.truthy then g.primary_meaning
       else JsText.str (utf16 "Unknown Glyph")) ∧
    (glyphCard g).transliteration =
      (if g.transliteration.truthy then g.transliteration
       else JsText.str (utf16 "Unknown")) ∧
    (glyphCard g).meaning =
      (if g.primary_meaning.truthy then g.primary_meaning
       else if g.meaning.truthy then g.meaning
       else JsText.str (utf16 "Ancient mystery")) ∧
    (glyphCard g).category =
      (if g.category.truthy then g.category
       else JsText.str (utf16 "Uncategorized")) ∧
    (glyphCard g).mysticalSignificance =
      (if g.mystical_significance.truthy then g.mystical_significance
       else JsText.str
        (utf16 "This glyph holds ancient wisdom waiting to be discovered.")) ∧
    (∀ items, g.layered_interpretations = JsArray.arr items →
      (glyphCard g).interpretations = JsArray.arr items) ∧
    (g.layered_interpretations = JsArray.undefined ∨
      g.layered_interpretations = JsArray.null →
      (glyphCard g).interpretations = JsArray.arr []) ∧
    ∀ (rest : List Glyph) (app : App) (d : Display), app.resultsContainer = some d →
      (displayGlyphs (g :: rest) app).resultsContainer =
        some (Display.cards (glyphCard g :: rest.map glyphCard)) := by
  refine ⟨?_, ?_, ?_, ?_, ?_, ?_, ?_, ?_, ?_, ?_⟩
  · intro v hv
    apply (truthy_iff v).mp
    simp only [List.mem_cons, List.mem_singleton, List.not_mem_nil, or_false] at hv
    rcases hv with h | h | h | h | h | h <;> rw [h] <;> unfold glyphCard <;>
      repeat (first | exact orElse_truthy _ _ (by decide) | apply orElse_truthy)
  · unfold glyphCard
    simp only [JsText.orElse]
    by_cases h1 : g.unicode_char.truthy = true
    · simp [h1]
    · by_cases h2 : g.unicode.truthy = true
      · simp [h1, h2]
      · by_cases h3 : g.symbol.truthy = true <;> simp [h1, h2, h3]
  · unfold glyphCard
    simp only [JsText.orElse]
    by_cases h1 : g.name.truthy = true
    · simp [h1]
    · by_cases h2 : g.primary_meaning.truthy = true <;> simp [h1, h2]
  · rfl
  · unfold glyphCard
    simp only [JsText.orElse]
    by_cases h1 : g.primary_meaning.truthy = true
    · simp [h1]
    · by_cases h2 : g.meaning.truthy = true <;> simp [h1, h2]
  · rfl
  · rfl
  · intro items h
    simp [glyphCard, h, JsArray.orEmpty]
  · intro h
    rcases h with h | h <;> simp [glyphCard, h, JsArray.orEmpty]
  · intro rest app d hd
    simp [displayGlyphs, hd]

/-- Witness of C11: the record with every key missing gets the fallback texts. -/
theorem glyphCard_values_witness :
    (glyphCard emptyGlyph).symbol = JsText.str (utf16 "𓈖") ∧
    (glyphCard emptyGlyph).name = JsText.str (utf16 "Unknown Glyph") ∧
    (glyphCard emptyGlyph).interpretations = JsArray.arr [] :=
  ⟨((glyphCard_values emptyGlyph).2.1).trans (by decide),
   ((glyphCard_values emptyGlyph).2.2.1).trans (by decide),
   (glyphCard_values emptyGlyph).2.2.2.2.2.2.2.2.1 (Or.inl rfl)⟩

/-! ## Failure of the glyph request (C12) -/

theorem showError_resultsContainer (message : JsString) (app : App) :
    (showError message app).resultsContainer =
      app.resultsContainer.map (fun _ => Display.error message) := by
  unfold showError
  cases h : app.resultsContainer <;> simp [h]

theorem showError_rest (message : JsString) (app : App) :
    (showError message app).isLoading = app.isLoading ∧
    (showError message app).searchBox = app.searchBox ∧
    (showError message app).categoryFilter = app.categoryFilter ∧
    (showError message app).interactions = app.interactions := by
  unfold showError
  cases app.resultsContainer <;> simp

/-- C12: when the glyph request is rejected or answered with a response that is not
ok, `loadGlyphs` completes (its promise is fulfilled, nothing reaches the caller),
leaves `glyphData`, `filteredGlyphs` and `idealsData` as they were, so that both
glyph lists are still empty when this happens at startup, and the results container,
when the page has one, shows the error block with the message of the glyph loader. -/
theorem loadGlyphs_failure (response : FetchOutcome (List Glyph)) (app : App)
    (hfail : response = FetchOutcome.rejected ∨ response = FetchOutcome.notOk) :
    loadGlyphsPromise response app = Settled.fulfilled (loadGlyphs response app) ∧
    (loadGlyphs response app).glyphData = app.glyphData ∧
    (loadGlyphs response app).filteredGlyphs = app.filteredGlyphs ∧
    (loadGlyphs response app).idealsData = app.idealsData ∧
    (loadGlyphs response app).resultsContainer =
      app.resultsContainer.map
        (fun _ => Display.error (utf16 "The glyphs remain veiled. Please try again.")) ∧
    ∀ searchBox categoryFilter resultsContainer,
      app = constructor searchBox categoryFilter resultsContainer →
      (loadGlyphs response app).glyphData = [] ∧
      (loadGlyphs response app).filteredGlyphs = [] := by
  have hs := showError_fields (utf16 "The glyphs remain veiled. Please try again.") app
  have hr := showError_resultsContainer
    (utf16 "The glyphs remain veiled. Please try again.") app
  have hl : loadGlyphs response app =
      showError (utf16 "The glyphs remain veiled. Please try again.") app := by
    rcases hfail with h | h <;> rw [h] <;> rfl
  rw [hl]
  refine ⟨by rw [loadGlyphsPromise, hl], hs.1, hs.2.2.1, hs.2.1, hr, ?_⟩
  intro sb cf rc happ
  rw [hs.1, hs.2.2.1, happ]
  exact ⟨rfl, rfl⟩

/-- Witness of C12: a response that is not ok, right after the constructor. -/
theorem loadGlyphs_failure_witness :
    (loadGlyphs FetchOutcome.notOk (constructor none none (some Display.initial))).glyphData
      = [] ∧
    (loadGlyphs FetchOutcome.notOk
      (constructor none none (some Display.initial))).resultsContainer =
      some (Display.error (utf16 "The glyphs remain veiled. Please try again.")) :=
  ⟨((loadGlyphs_failure FetchOutcome.notOk (constructor none none (some Display.initial))
      (Or.inr rfl)).2.2.2.2.2 none none (some Display.initial) rfl).1,
   (loadGlyphs_failure FetchOutcome.notOk (constructor none none (some Display.initial))
      (Or.inr rfl)).2.2.2.2.1⟩

/-! ## Loads started at startup (C13) -/

/-- C13, as the claim states it, fails: when the tab "maat" is the active one at
startup, `init` starts two ideals loads, one from `switchTab` and one from
`loadSacredData`. -/
theorem init_counterexample :
    (init (some (JsText.str (utf16 "maat"))) none none none).count Request.ideals = 2 ∧
    (init (some (JsText.str (utf16 "maat"))) none none none).count Request.ideals ≠ 1 := by
  decide

/-- C13 (amended): `init` starts exactly one glyph load, and exactly one ideals load
unless the tab that is active at startup is "maat", in which case it starts two. -/
theorem init_requests (activeTab : Option JsText) (searchBox : Option JsString)
    (categoryFilter : Option SelectElement) (resultsContainer : Option Display) :
    (init activeTab searchBox categoryFilter resultsContainer).count Request.glyphs = 1 ∧
    (init activeTab searchBox categoryFilter resultsContainer).count Request.ideals =
      (if activeTab = some (JsText.str (utf16 "maat")) then 2 else 1) := by
  unfold init initializeTabs loadSacredDataRequests
  cases activeTab with
  | none => simp
  | some tabName =>
    unfold switchTab
    by_cases h : tabName = JsText.str (utf16 "maat")
    · simp [h, constructor]
    · simp [h]

/-! ## The result as a view of the search state (C14) -/

/-- C14, as the claim states it, fails: a search for "zzz" while the collection is still
empty, followed by the completion of the glyph load, leaves the search state at "zzz"
and `filteredGlyphs` at the whole collection, although no record matches "zzz". -/
theorem filteredGlyphs_view_counterexample :
    ∃ app, run asciiLower
        [Action.input (utf16 "zzz"), Action.search,
         Action.glyphsLoaded (FetchOutcome.body [ankh, was])]
        (constructor (some []) (some (SelectElement.mk [] [])) (some Display.initial))
        = .ok app ∧
      app.currentSearchTerm = utf16 "zzz" ∧
      app.filteredGlyphs = [ankh, was] ∧
      filterResult asciiLower app.currentSearchTerm app.currentCategory app.glyphData = [] ∧
      app.filteredGlyphs ≠
        filterResult asciiLower app.currentSearchTerm app.currentCategory app.glyphData :=
  ⟨_, rfl, by decide, by decide, by decide, by decide⟩

theorem step_search_view (lower : JsString → JsString) (app : App) :
    ∃ app', step lower Action.search app = .ok app' ∧
      app'.filteredGlyphs =
        filterResult lower app'.currentSearchTerm app'.currentCategory app'.glyphData := by
  obtain ⟨a, hok, g1, _, f1, s1, c1, _⟩ := handleSearch_fields lower app
  refine ⟨a, hok, ?_⟩
  rw [f1, s1, c1, g1]
  rfl

theorem step_keeps_view (lower : JsString → JsString) (a : Action) (app : App)
    (ha : ∀ data, a ≠ Action.glyphsLoaded (FetchOutcome.body data))
    (h : app.filteredGlyphs =
      filterResult lower app.currentSearchTerm app.currentCategory app.glyphData) :
    ∃ app', step lower a app = .ok app' ∧
      app'.filteredGlyphs =
        filterResult lower app'.currentSearchTerm app'.currentCategory app'.glyphData := by
  cases a with
  | input text => exact ⟨_, rfl, h⟩
  | select category => exact ⟨_, rfl, h⟩
  | search => exact step_search_view lower app
  | glyphsLoaded response =>
    refine ⟨_, rfl, ?_⟩
    have hs := showError_fields (utf16 "The glyphs remain veiled. Please try again.") app
    cases response with
    | body data => exact absurd rfl (ha data)
    | rejected =>
      show (showError _ app).filteredGlyphs = filterResult lower
        (showError _ app).currentSearchTerm (showError _ app).currentCategory
        (showError _ app).glyphData
      rw [hs.1, hs.2.2.1, hs.2.2.2.1, hs.2.2.2.2]; exact h
    | notOk =>
      show (showError _ app).filteredGlyphs = filterResult lower
        (showError _ app).currentSearchTerm (showError _ app).currentCategory
        (showError _ app).glyphData
      rw [hs.1, hs.2.2.1, hs.2.2.2.1, hs.2.2.2.2]; exact h

theorem step_view_or_all (lower : JsString → JsString) (a : Action) (app : App)
    (h : app.filteredGlyphs =
        filterResult lower app.currentSearchTerm app.currentCategory app.glyphData ∨
      app.filteredGlyphs = app.glyphData) :
    ∃ app', step lower a app = .ok app' ∧
      (app'.filteredGlyphs =
          filterResult lower app'.currentSearchTerm app'.currentCategory app'.glyphData ∨
        app'.filteredGlyphs = app'.glyphData) := by
  by_cases ha : ∃ data, a = Action.glyphsLoaded (FetchOutcome.body data)
  · obtain ⟨data, rfl⟩ := ha
    refine ⟨_, rfl, Or.inr ?_⟩
    rw [(loadGlyphs_body data app).1, (loadGlyphs_body data app).2]
  · have ha2 : ∀ data, a ≠ Action.glyphsLoaded (FetchOutcome.body data) :=
      fun data e => ha ⟨data, e⟩
    rcases h with h | h
    · obtain ⟨app', hok, hv⟩ := step_keeps_view lower a app ha2 h
      exact ⟨app', hok, Or.inl hv⟩
    · cases a with
      | input text => exact ⟨_, rfl, Or.inr h⟩
      | select category => exact ⟨_, rfl, Or.inr h⟩
      | search =>
        obtain ⟨app', hok, hv⟩ := step_search_view lower app
        exact ⟨app', hok, Or.inl hv⟩
      | glyphsLoaded response =>
        refine ⟨_, rfl, Or.inr ?_⟩
        have hf := loadGlyphs_failed response app (fun d e => ha2 d (by rw [e]))
        rw [hf.1, hf.2]; exact h

theorem run_view_or_all (lower : JsString → JsString) (acts : List Action) (app : App)
    (h : app.filteredGlyphs =
        filterResult lower app.currentSearchTerm app.currentCategory app.glyphData ∨
      app.filteredGlyphs = app.glyphData) :
    ∃ app', run lower acts app = .ok app' ∧
      (app'.filteredGlyphs =
          filterResult lower app'.currentSearchTerm app'.currentCategory app'.glyphData ∨
        app'.filteredGlyphs = app'.glyphData) := by
  induction acts generalizing app with
  | nil => exact ⟨app, rfl, h⟩
  | cons a rest ih =>
    obtain ⟨app1, hstep, h1⟩ := step_view_or_all lower a app h
    obtain ⟨app2, hrun, h2⟩ := ih app1 h1
    exact ⟨app2, by simp only [run, hstep, hrun], h2⟩

theorem run_keeps_view (lower : JsString → JsString) (acts : List Action) (app : App)
    (ha : ∀ a ∈ acts, ∀ data, a ≠ Action.glyphsLoaded (FetchOutcome.body data))
    (h : app.filteredGlyphs =
      filterResult lower app.currentSearchTerm app.currentCategory app.glyphData) :
    ∃ app', run lower acts app = .ok app' ∧
      app'.filteredGlyphs =
        filterResult lower app'.currentSearchTerm app'.currentCategory app'.glyphData := by
  induction acts generalizing app with
  | nil => exact ⟨app, rfl, h⟩
  | cons a rest ih =>
    obtain ⟨app1, hstep, h1⟩ :=
      step_keeps_view lower a app (ha a (List.mem_cons_self a rest)) h
    obtain ⟨app2, hrun, h2⟩ := ih app1 (fun b hb => ha b (List.mem_cons_of_mem a hb)) h1
    exact ⟨app2, by simp only [run, hstep, hrun], h2⟩

theorem run_append (lower : JsString → JsString) (xs ys : List Action) (app app1 : App)
    (h : run lower xs app = .ok app1) : run lower (xs ++ ys) app = run lower ys app1 := by
  induction xs generalizing app with
  | nil =>
    simp only [run, Except.ok.injEq] at h
    rw [h]; rfl
  | cons a rest ih =>
    simp only [run, List.cons_append] at h ⊢
    cases hs : step lower a app with
    | error e => rw [hs] at h; cases h
    | ok app2 =>
      rw [hs] at h
      exact ih app2 h

/-- C14 (amended): in every state reached from the constructor by user inputs,
`handleSearch` calls and completions of `loadGlyphs`, `filteredGlyphs` is either the
filter result for the current `glyphData`, `currentSearchTerm` and `currentCategory`,
or the whole of `glyphData`; it is the filter result whenever a `handleSearch` call has
been made and no glyph load has delivered a collection since the last one. -/
theorem filteredGlyphs_view (lower : JsString → JsString)
    (searchBox : Option JsString) (categoryFilter : Option SelectElement)
    (resultsContainer : Option Display) (acts : List Action) :
    ∃ app, run lower acts (constructor searchBox categoryFilter resultsContainer) = .ok app ∧
      (app.filteredGlyphs =
          filterResult lower app.currentSearchTerm app.currentCategory app.glyphData ∨
        app.filteredGlyphs = app.glyphData) ∧
      ∀ before after, acts = before ++ Action.search :: after →
        (∀ a ∈ after, ∀ data, a ≠ Action.glyphsLoaded (FetchOutcome.body data)) →
        app.filteredGlyphs =
          filterResult lower app.currentSearchTerm app.currentCategory app.glyphData := by
  obtain ⟨app, hrun, hinv⟩ := run_view_or_all lower acts
    (constructor searchBox categoryFilter resultsContainer) (Or.inr rfl)
  refine ⟨app, hrun, hinv, ?_⟩
  intro before after hacts hafter
  obtain ⟨s1, h1, _⟩ := run_view_or_all lower before
    (constructor searchBox categoryFilter resultsContainer) (Or.inr rfl)
  obtain ⟨s2, h2, hv2⟩ := step_search_view lower s1
  obtain ⟨s3, h3, hv3⟩ := run_keeps_view lower after s2 hafter hv2
  have hall : run lower acts (constructor searchBox categoryFilter resultsContainer) =
      .ok s3 := by
    rw [hacts, run_append lower before _ _ s1 h1]
    simp only [run, h2, h3]
  rw [hrun] at hall
  cases hall
  exact hv3

/-! ## Independence of the two loads (C15) -/

theorem loadGlyphs_idealsData (response : FetchOutcome (List Glyph)) (app : App) :
    (loadGlyphs response app).idealsData = app.idealsData := by
  have hs := showError_fields (utf16 "The glyphs remain veiled. Please try again.") app
  cases response with
  | rejected => exact hs.2.1
  | notOk => exact hs.2.1
  | body data =>
    obtain ⟨app2, hok, _, hi, _⟩ :=
      populateCategoryFilter_ok { app with glyphData := data, filteredGlyphs := data }
    simp only [loadGlyphs, hok]
    exact ((displayGlyphs_fields app2.glyphData app2).2.1).trans hi

theorem loadGlyphs_resultsContainer (response : FetchOutcome (List Glyph)) (app : App) :
    (loadGlyphs response app).resultsContainer = none ∨
    (loadGlyphs response app).resultsContainer = some Display.noResults ∨
    (∃ cs, (loadGlyphs response app).resultsContainer = some (Display.cards cs)) ∨
    (loadGlyphs response app).resultsContainer =
      some (Display.error (utf16 "The glyphs remain veiled. Please try again.")) := by
  have hr := showError_resultsContainer
    (utf16 "The glyphs remain veiled. Please try again.") app
  have hfail : (showError (utf16 "The glyphs remain veiled. Please try again.")
      app).resultsContainer = none ∨
      (showError (utf16 "The glyphs remain veiled. Please try again.")
        app).resultsContainer =
        some (Display.error (utf16 "The glyphs remain veiled. Please try again.")) := by
    rw [hr]
    cases app.resultsContainer with
    | none => exact Or.inl rfl
    | some d => exact Or.inr rfl
  cases response with
  | rejected => rcases hfail with h | h
                · exact Or.inl h
                · exact Or.inr (Or.inr (Or.inr h))
  | notOk => rcases hfail with h | h
             · exact Or.inl h
             · exact Or.inr (Or.inr (Or.inr h))
  | body data =>
    obtain ⟨app2, hok, _, _, _, _, _, hrc⟩ :=
      populateCategoryFilter_ok { app with glyphData := data, filteredGlyphs := data }
    simp only [loadGlyphs, hok]
    rw [displayGlyphs_resultsContainer, hrc]
    cases app.resultsContainer with
    | none => exact Or.inl rfl
    | some d =>
      by_cases hlen : app2.glyphData.length = 0
      · exact Or.inr (Or.inl (by simp [hlen]))
      · exact Or.inr (Or.inr (Or.inl ⟨app2.glyphData.map glyphCard, by simp [hlen]⟩))

/-- C15: for all outcomes of the two requests and either order of completion, the
promises of `loadGlyphs` and `loadIdeals` are fulfilled, `loadSacredData` ends through
its normal path (the two loaders applied after `showLoading`, then `hideLoading`) and
never shows the message of its own `catch` clause, `isLoading` is false at the end,
`idealsData` is the delivered list whenever the ideals request delivers one, and
`glyphData` is the delivered list whenever the glyph request delivers one. -/
theorem loadSacredData_isolated (glyphs : FetchOutcome (List Glyph))
    (ideals : FetchOutcome (List JsString)) (glyphsFirst : Bool) (app : App) :
    (∀ a, loadGlyphsPromise glyphs a = Settled.fulfilled (loadGlyphs glyphs a)) ∧
    (∀ a, loadIdealsPromise ideals a = Settled.fulfilled (loadIdeals ideals a)) ∧
    loadSacredData glyphs ideals glyphsFirst app =
      hideLoading
        (if glyphsFirst then
          loadIdeals ideals
            (loadGlyphs glyphs (showLoading (utf16 "Channeling ancient wisdom...") app))
         else
          loadGlyphs glyphs
            (loadIdeals ideals (showLoading (utf16 "Channeling ancient wisdom...") app))) ∧
    (loadSacredData glyphs ideals glyphsFirst app).resultsContainer ≠
      some (Display.error (utf16
        "The cosmic connection has been disrupted. Please refresh to restore the link.")) ∧
    (loadSacredData glyphs ideals glyphsFirst app).isLoading = false ∧
    (∀ data, ideals = FetchOutcome.body data →
      (loadSacredData glyphs ideals glyphsFirst app).idealsData = data) ∧
    (∀ data, glyphs = FetchOutcome.body data →
      (loadSacredData glyphs ideals glyphsFirst app).glyphData = data) := by
  have heq : loadSacredData glyphs ideals glyphsFirst app =
      hideLoading
        (if glyphsFirst then
          loadIdeals ideals
            (loadGlyphs glyphs (showLoading (utf16 "Channeling ancient wisdom...") app))
         else
          loadGlyphs glyphs
            (loadIdeals ideals (showLoading (utf16 "Channeling ancient wisdom...") app))) := by
    cases glyphsFirst <;> rfl
  have hIg : ∀ a, (loadIdeals ideals a).glyphData = a.glyphData := by
    intro a; cases ideals <;> rfl
  have hIr : ∀ a, (loadIdeals ideals a).resultsContainer = a.resultsContainer := by
    intro a; cases ideals <;> rfl
  have hne : ∀ a, (loadGlyphs glyphs a).resultsContainer ≠
      some (Display.error (utf16
        "The cosmic connection has been disrupted. Please refresh to restore the link.")) := by
    intro a h
    rcases loadGlyphs_resultsContainer glyphs a with h1 | h1 | ⟨cs, h1⟩ | h1 <;>
      rw [h1] at h
    · cases h
    · cases h
    · cases h
    · revert h; decide
  refine ⟨fun _ => rfl, fun _ => rfl, heq, ?_, ?_, ?_, ?_⟩
  · rw [heq]
    cases glyphsFirst
    · exact hne _
    · show (loadIdeals ideals _).resultsContainer ≠ _
      rw [hIr]; exact hne _
  · rw [heq]; rfl
  · intro data hd
    rw [heq, hd]
    cases glyphsFirst
    · show (loadGlyphs glyphs _).idealsData = data
      rw [loadGlyphs_idealsData]; rfl
    · rfl
  · intro data hd
    rw [heq, hd]
    cases glyphsFirst
    · show (loadGlyphs (FetchOutcome.body data) _).glyphData = data
      exact (loadGlyphs_body data _).1
    · show (loadIdeals ideals _).glyphData = data
      rw [hIg]; exact (loadGlyphs_body data _).1

/-! ## Narrowing a search (C16) -/

theorem textFiltered_narrowing (lower : JsString → JsString) (term1 term2 : JsString)
    (h : term1 <:+: term2) (glyphs : List Glyph) :
    (textFiltered lower term2 glyphs).Sublist (textFiltered lower term1 glyphs) := by
  by_cases h1 : term1 = []
  · have : textFiltered lower term1 glyphs = glyphs := by simp [textFiltered, h1]
    rw [this]
    exact textFiltered_sublist lower term2 glyphs
  · have h2 : term2 ≠ [] := by
      intro e
      rw [e] at h
      exact h1 (List.eq_nil_of_infix_nil h)
    unfold textFiltered
    rw [if_pos h1, if_pos h2]
    apply List.monotone_filter_right
    intro g hg
    obtain ⟨s, hs, hne, hin⟩ := (matchesText_iff lower term2 g).mp hg
    exact (matchesText_iff lower term1 g).mpr ⟨s, hs, hne, h.trans hin⟩

/-- C16: when the lower-cased text `t1` is a substring of the lower-cased text `t2`, the
result of `handleSearch` for `t2` and a category is a subsequence of the result for `t1`
and the same category. -/
theorem handleSearch_narrowing (lower : JsString → JsString) (app : App)
    (t1 t2 c : JsString) (h : lower t1 <:+: lower t2) :
    ∃ r1 r2, handleSearch lower (app.withInputs t1 c) = .ok r1 ∧
      handleSearch lower (app.withInputs t2 c) = .ok r2 ∧
      r2.filteredGlyphs.Sublist r1.filteredGlyphs := by
  obtain ⟨r1, hok1, hf1⟩ := handleSearch_filteredGlyphs lower (app.withInputs t1 c)
  obtain ⟨r2, hok2, hf2⟩ := handleSearch_filteredGlyphs lower (app.withInputs t2 c)
  refine ⟨r1, r2, hok1, hok2, ?_⟩
  rw [hf1, hf2, searchTermOf_withInputs, searchTermOf_withInputs,
    selectedCategoryOf_withInputs, selectedCategoryOf_withInputs]
  have hG : ∀ x y, (app.withInputs x y).glyphData = app.glyphData := fun _ _ => rfl
  rw [hG, hG]
  obtain ⟨q, hq⟩ := categoryFiltered_as_filter c
  rw [hq, hq]
  exact (textFiltered_narrowing lower _ _ h app.glyphData).filter q

/-- Witness of C16: "life" is a substring of "eternal life". -/
theorem handleSearch_narrowing_witness :
    ∃ r1 r2,
      handleSearch asciiLower ((appWith [ankh, was] [] []).withInputs (utf16 "life") [])
        = .ok r1 ∧
      handleSearch asciiLower
        ((appWith [ankh, was] [] []).withInputs (utf16 "eternal life") []) = .ok r2 ∧
      r2.filteredGlyphs.Sublist r1.filteredGlyphs :=
  handleSearch_narrowing asciiLower (appWith [ankh, was] [] []) (utf16 "life")
    (utf16 "eternal life") [] (by decide)

/-! ## Every listed category selects something (C17) -/

theorem mem_categories (glyphData : List Glyph) (cs : List JsText)
    (h : categories glyphData = .ok cs) (x : JsText) :
    x ∈ cs ↔ (∃ g ∈ glyphData, g.category = x) ∧ keepsCategory x = true := by
  rw [categories_ok] at h
  cases h
  rw [(sort_perm _).mem_iff, List.mem_filter, mem_newSet, List.mem_map]

/-- C17: for every category string `c` of the list `populateCategoryFilter` computes,
`handleSearch` with an empty search text and the category `c` yields a result that is
not empty and whose records all have the category `c`. -/
theorem listed_category_selects (lower : JsString → JsString) (hl : lower [] = [])
    (app : App) (cs : List JsText) (hcs : categories app.glyphData = .ok cs)
    (c : JsString) (hc : JsText.str c ∈ cs) :
    ∃ r, handleSearch lower (app.withInputs [] c) = .ok r ∧
      r.filteredGlyphs ≠ [] ∧
      ∀ g ∈ r.filteredGlyphs, g.category = JsText.str c := by
  obtain ⟨⟨g, hg, hgc⟩, hkeep⟩ := (mem_categories app.glyphData cs hcs _).mp hc
  obtain ⟨c2, hc2, hne, _⟩ := (keepsCategory_iff _).mp hkeep
  cases hc2
  obtain ⟨r, hok, hf⟩ := handleSearch_filteredGlyphs lower (app.withInputs [] c)
  have hres : r.filteredGlyphs =
      app.glyphData.filter (fun g => decide (g.category = JsText.str c)) := by
    rw [hf, searchTermOf_withInputs, selectedCategoryOf_withInputs, hl]
    have hG : (app.withInputs [] c).glyphData = app.glyphData := rfl
    rw [hG]
    simp [textFiltered, categoryFiltered, hne]
  refine ⟨r, hok, ?_, ?_⟩
  · rw [hres]
    intro hnil
    have hmem : g ∈ app.glyphData.filter (fun g => decide (g.category = JsText.str c)) :=
      List.mem_filter.mpr ⟨hg, decide_eq_true hgc⟩
    rw [hnil] at hmem
    cases hmem
  · intro g2 hg2
    rw [hres] at hg2
    exact of_decide_eq_true (List.mem_filter.mp hg2).2

/-- Witness of C17: the category "Power" of the two example records. -/
theorem listed_category_selects_witness :
    ∃ r, handleSearch asciiLower ((appWith [ankh, was] [] []).withInputs [] (utf16 "Power"))
        = .ok r ∧
      r.filteredGlyphs ≠ [] ∧
      ∀ g ∈ r.filteredGlyphs, g.category = JsText.str (utf16 "Power") :=
  listed_category_selects asciiLower rfl (appWith [ankh, was] [] [])
    [JsText.str (utf16 "Life"), JsText.str (utf16 "Power")]
    ((categories_ok _).trans (congrArg Except.ok (by decide))) (utf16 "Power") (by decide)

/-! ## Escaping of markup (C18) -/

theorem escapeUnit_cases (u : Nat) :
    (u = 38 ∧ escapeUnit u = [38, 97, 109, 112, 59]) ∨
    (u = 60 ∧ escapeUnit u = [38, 108, 116, 59]) ∨
    (u = 62 ∧ escapeUnit u = [38, 103, 116, 59]) ∨
    (u = 34 ∧ escapeUnit u = [38, 113, 117, 111, 116, 59]) ∨
    (u = 39 ∧ escapeUnit u = [38, 35, 48, 51, 57, 59]) ∨
    ((u ≠ 38 ∧ u ≠ 60 ∧ u ≠ 62 ∧ u ≠ 34 ∧ u ≠ 39) ∧ escapeUnit u = [u]) := by
  by_cases h1 : u = 38
  · subst h1; exact Or.inl ⟨rfl, by decide⟩
  by_cases h2 : u = 60
  · subst h2; exact Or.inr (Or.inl ⟨rfl, by decide⟩)
  by_cases h3 : u = 62
  · subst h3; exact Or.inr (Or.inr (Or.inl ⟨rfl, by decide⟩))
  by_cases h4 : u = 34
  · subst h4; exact Or.inr (Or.inr (Or.inr (Or.inl ⟨rfl, by decide⟩)))
  by_cases h5 : u = 39
  · subst h5; exact Or.inr (Or.inr (Or.inr (Or.inr (Or.inl ⟨rfl, by decide⟩))))
  · exact Or.inr (Or.inr (Or.inr (Or.inr (Or.inr
      ⟨⟨h1, h2, h3, h4, h5⟩, by simp [escapeUnit, h1, h2, h3, h4, h5]⟩))))

theorem entities_eq :
    entities = [[38, 97, 109, 112, 59], [38, 108, 116, 59], [38, 103, 116, 59],
      [38, 113, 117, 111, 116, 59], [38, 35, 48, 51, 57, 59]] := by
  decide

theorem escapeUnit_free (u : Nat) :
    60 ∉ escapeUnit u ∧ 62 ∉ escapeUnit u ∧ 34 ∉ escapeUnit u ∧ 39 ∉ escapeUnit u := by
  rcases escapeUnit_cases u with ⟨_, h⟩ | ⟨_, h⟩ | ⟨_, h⟩ | ⟨_, h⟩ | ⟨_, h⟩ | ⟨hu, h⟩ <;>
    rw [h]
  · decide
  · decide
  · decide
  · decide
  · decide
  · simp only [List.mem_singleton]
    omega

theorem escapeUnit_ampersand (u : Nat) (pre post : JsString)
    (h : escapeUnit u = pre ++ 38 :: post) : pre = [] ∧ escapeUnit u ∈ entities := by
  have key : ∀ body : JsString, 38 ∉ body → 38 :: body = pre ++ 38 :: post → pre = [] := by
    intro body hb he
    cases pre with
    | nil => rfl
    | cons p ps =>
      exfalso
      simp only [List.cons_append, List.cons.injEq] at he
      apply hb
      rw [he.2]
      simp
  rw [entities_eq]
  rcases escapeUnit_cases u with ⟨_, e⟩ | ⟨_, e⟩ | ⟨_, e⟩ | ⟨_, e⟩ | ⟨_, e⟩ | ⟨hu, e⟩ <;>
    rw [e] at h ⊢
  · exact ⟨key _ (by decide) h, by simp⟩
  · exact ⟨key _ (by decide) h, by simp⟩
  · exact ⟨key _ (by decide) h, by simp⟩
  · exact ⟨key _ (by decide) h, by simp⟩
  · exact ⟨key _ (by decide) h, by simp⟩
  · exfalso
    have hm : (38 : Nat) ∈ [u] := by rw [h]; simp
    simp only [List.mem_singleton] at hm
    exact hu.1 hm.symm

theorem replaceSpecial_cons (u : Nat) (s : JsString) :
    replaceSpecial (u :: s) = escapeUnit u ++ replaceSpecial s := rfl

theorem replaceSpecial_free (s : JsString) :
    60 ∉ replaceSpecial s ∧ 62 ∉ replaceSpecial s ∧ 34 ∉ replaceSpecial s ∧
      39 ∉ replaceSpecial s := by
  induction s with
  | nil => simp [replaceSpecial]
  | cons u us ih =>
    have hu := escapeUnit_free u
    simp only [replaceSpecial_cons, List.mem_append, not_or]
    exact ⟨⟨hu.1, ih.1⟩, ⟨hu.2.1, ih.2.1⟩, ⟨hu.2.2.1, ih.2.2.1⟩, ⟨hu.2.2.2, ih.2.2.2⟩⟩

theorem replaceSpecial_ampersand (s : JsString) (pre post : JsString)
    (h : replaceSpecial s = pre ++ 38 :: post) : ∃ e ∈ entities, e <+: 38 :: post := by
  induction s generalizing pre with
  | nil =>
    have hnil : replaceSpecial [] = [] := rfl
    rw [hnil] at h
    simp at h
  | cons u us ih =>
    rw [replaceSpecial_cons] at h
    rcases List.append_eq_append_iff.mp h with ⟨a, hpre, hrest⟩ | ⟨c, hunit, hpost⟩
    · exact ih a hrest
    · cases c with
      | nil =>
        simp only [List.nil_append] at hpost
        exact ih [] hpost.symm
      | cons x xs =>
        simp only [List.cons_append, List.cons.injEq] at hpost
        obtain ⟨hx, hxs⟩ := hpost
        subst hx
        obtain ⟨hpre, hent⟩ := escapeUnit_ampersand u pre xs hunit
        refine ⟨escapeUnit u, hent, ?_⟩
        rw [hunit, hpre, hxs]
        exact ⟨replaceSpecial us, by simp⟩

theorem replaceSpecial_plain (s : JsString)
    (h : ∀ u ∈ s, u ≠ 38 ∧ u ≠ 60 ∧ u ≠ 62 ∧ u ≠ 34 ∧ u ≠ 39) : replaceSpecial s = s := by
  induction s with
  | nil => rfl
  | cons u us ih =>
    have hu := h u (List.mem_cons_self u us)
    rw [replaceSpecial_cons, ih (fun v hv => h v (List.mem_cons_of_mem u hv))]
    simp [escapeUnit, hu.1, hu.2.1, hu.2.2.1, hu.2.2.2.1, hu.2.2.2.2]

/-- C18: `escapeHtml` returns a string for every text value; the result holds none of
the code units of `<`, `>`, the double quote and the apostrophe; every `&` of the result
is the start of one of the five entities; a string without the five special characters
is returned as it is; and a missing, null or empty input gives the empty string. -/
theorem escapeHtml_safe (text : JsText) :
    ∃ out, escapeHtml text = .ok out ∧
      (60 ∉ out ∧ 62 ∉ out ∧ 34 ∉ out ∧ 39 ∉ out) ∧
      (∀ pre post, out = pre ++ 38 :: post → ∃ e ∈ entities, e <+: 38 :: post) ∧
      (∀ s, text = JsText.str s →
        (∀ u ∈ s, u ≠ 38 ∧ u ≠ 60 ∧ u ≠ 62 ∧ u ≠ 34 ∧ u ≠ 39) → out = s) ∧
      (text = JsText.undefined ∨ text = JsText.null ∨ text = JsText.str [] → out = []) := by
  cases text with
  | undefined =>
    refine ⟨[], rfl, by simp, ?_, ?_, fun _ => rfl⟩
    · intro pre post h; simp at h
    · intro s h; cases h
  | null =>
    refine ⟨[], rfl, by simp, ?_, ?_, fun _ => rfl⟩
    · intro pre post h; simp at h
    · intro s h; cases h
  | str s =>
    cases s with
    | nil =>
      refine ⟨[], rfl, by simp, ?_, ?_, fun _ => rfl⟩
      · intro pre post h; simp at h
      · intro s h _; cases h; rfl
    | cons u us =>
      refine ⟨replaceSpecial (u :: us), rfl, replaceSpecial_free _,
        fun pre post h => replaceSpecial_ampersand _ pre post h, ?_, ?_⟩
      · intro s h hs
        cases h
        exact replaceSpecial_plain _ hs
      · intro h
        rcases h with h | h | h <;> cases h

end GlyphCodex
